import Mathlib

/-!
# The Catacombs of Nadaroth: terminal input manager

A shallow embedding of `input_manager.c`.

* Bytes are natural numbers `0..255`; a C buffer is a `List Nat`.
* `int` values are `Int`; the only place where an `int` can leave its range is the
  `%d` conversion of `sscanf`, modelled by `store_int`.
* The callbacks handed to `process_input` are not executed: every invocation is
  recorded, in order, as a `Callback`. A callback is taken not to call back into the
  input manager, so the gate `unlock` and the key tables change between two
  iterations of the outer loop only (`Action`).
* One iteration of the outer `while (1)` of `process_input` is `process_input_iter`,
  applied to the bytes returned by `read`. The local `input_buffer` is represented by
  its first `input_buffer_length` bytes (the bytes behind them are never read).
* The inner loop is `scan_loop`, bounded by a number of iterations;
  `scan_loop_exit` and `scan_loop_fuel` show that the bound used is never reached
  before the loop exits.
-/

namespace InputManager

/-! ## Constants -/

/-- The constant `#define MAX_KEYS 256`. -/
def MAX_KEYS : Nat := 256

/-- The constant `#define MAX_BUFFER_SIZE 1024`. -/
def MAX_BUFFER_SIZE : Nat := 1024

/-- The size of `char buffer[128]`, the most one `read` can return. -/
def READ_SIZE : Nat := 128

/-! ## `MouseEvent` -/

/-- The struct `MouseEvent`. -/
structure MouseEvent where
  target_x : Int
  target_y : Int
  left_just_pressed : Bool
  right_just_pressed : Bool
  left_click : Int
  right_click : Int
deriving DecidableEq, Repr

/-! ## `sscanf(buffer, "\033[<%d;%d;%d%c", ...)` -/

/-- The function `isspace` in the C locale: space, `\t`, `\n`, `\v`, `\f`, `\r`. -/
def isspace (c : Nat) : Bool := c == 32 || (9 ≤ c && c ≤ 13)

/-- The function `isdigit`: true on `'0'..'9'`. -/
def isdigit (c : Nat) : Bool := 48 ≤ c && c ≤ 57

/-- The C string that starts at `buffer`: the bytes before the first NUL. -/
def c_str (buffer : List Nat) : List Nat := buffer.takeWhile (fun c => c != 0)

/-- An ordinary character of the format: the next input byte has to be `c`. -/
def match_char (c : Nat) : List Nat → Option (List Nat)
  | [] => none
  | d :: rest => if d = c then some rest else none

/-- Leading white space skipped by `%d`. -/
def skip_space : List Nat → List Nat
  | [] => []
  | c :: rest => if isspace c then skip_space rest else c :: rest

/-- The run of decimal digits read by `%d`: accumulated value and remaining input. -/
def scan_digits : List Nat → Nat → Nat × List Nat
  | [], acc => (acc, [])
  | c :: rest, acc =>
    if isdigit c then scan_digits rest (acc * 10 + (c - 48)) else (acc, c :: rest)

/-- The value `%d` stores into an `int`: the digits are converted as by `strtol`
(saturating at the range of `long`, 64 bits) and the result is truncated to 32 bits.
Inside the range of `int` this is the identity; outside it the C standard leaves the
conversion undefined, and this is what glibc does on LP64. -/
def store_int (v : Int) : Int :=
  let l : Int := max (-(2 ^ 63)) (min (2 ^ 63 - 1) v)
  (l + 2 ^ 31) % 2 ^ 32 - 2 ^ 31

/-- One `%d` conversion: white space, an optional sign, at least one digit. -/
def scan_int (s : List Nat) : Option (Int × List Nat) :=
  let s1 := skip_space s
  let signed : Bool × List Nat :=
    match s1 with
    | 45 :: rest => (true, rest)
    | 43 :: rest => (false, rest)
    | _ => (false, s1)
  match signed.2 with
  | [] => none
  | c :: _ =>
    if isdigit c then
      let r := scan_digits signed.2 0
      some (store_int (if signed.1 then -(r.1 : Int) else (r.1 : Int)), r.2)
    else none

/-- The conversion `%c`: the next byte of the string, if there is one. -/
def scan_char : List Nat → Option Nat
  | [] => none
  | c :: _ => some c

/-- The call `sscanf(buffer, "\033[<%d;%d;%d%c", &button, &x, &y, &event_type)`:
`some (button, x, y, event_type)` when it returns 4, that is when all four conversions
succeed, and `none` otherwise. -/
def sscanf_sgr (buffer : List Nat) : Option (Int × Int × Int × Nat) :=
  (match_char 27 (c_str buffer)).bind fun s =>
  (match_char 91 s).bind fun s =>
  (match_char 60 s).bind fun s =>
  (scan_int s).bind fun b =>
  (match_char 59 b.2).bind fun s =>
  (scan_int s).bind fun x =>
  (match_char 59 x.2).bind fun s =>
  (scan_int s).bind fun y =>
  (scan_char y.2).bind fun event_type =>
  some (b.1, x.1, y.1, event_type)

/-! ## `parse_sgr_mouse_event` -/

/-- The function `void parse_sgr_mouse_event(const char* buffer, MouseEvent* event)`:
the event after the call. `77` is `'M'`, `109` is `'m'`; `/` on `int` truncates. -/
def parse_sgr_mouse_event (buffer : List Nat) (event : MouseEvent) : MouseEvent :=
  let event := { event with left_click := 0, right_click := 0 }
  match sscanf_sgr buffer with
  | none => event
  | some (button, x, y, event_type) =>
    if button ≥ 64 then event
    else
      let btn := Int.land button 3
      if Int.land button 3 = 0 then
        if event_type = 77 ∧ event.left_just_pressed = false then
          { event with
            left_click := 1
            left_just_pressed := true
            target_x := (Int.tdiv x 2) * 2
            target_y := y }
        else if event_type = 109 then
          { event with left_just_pressed := false }
        else event
      else if btn = 2 then
        if event_type = 77 ∧ event.right_just_pressed = false then
          { event with
            right_click := 1
            right_just_pressed := true }
        else if event_type = 109 then
          { event with right_just_pressed := false }
        else event
      else event

/-! ## The escape sequence classifier -/

/-- The function `bool is_mouse_event(const char* buffer, size_t length)`. -/
def is_mouse_event (buffer : List Nat) (length : Nat) : Bool :=
  decide (length ≥ 3) && buffer.getD 0 0 == 27 && buffer.getD 1 0 == 91 &&
    buffer.getD 2 0 == 60

/-- The function `bool is_arrow_key(const char* buffer, size_t length)`. -/
def is_arrow_key (buffer : List Nat) (length : Nat) : Bool :=
  decide (length ≥ 3) && buffer.getD 0 0 == 27 && buffer.getD 1 0 == 91 &&
    (buffer.getD 2 0 == 65 || buffer.getD 2 0 == 66 || buffer.getD 2 0 == 67 ||
      buffer.getD 2 0 == 68)

/-- The `while` loop of `get_mouse_event_length`: `bytes` is the memory from
`buffer + i` on; the result is the value of `i` when the loop exits. -/
def mouse_scan (length : Nat) : List Nat → Nat → Nat
  | [], i => i
  | c :: rest, i =>
    if i < length ∧ (isdigit c = true ∨ c = 59) then mouse_scan length rest (i + 1) else i

/-- The function `size_t get_mouse_event_length(const char* buffer, size_t length)`. -/
def get_mouse_event_length (buffer : List Nat) (length : Nat) : Nat :=
  let i := mouse_scan length (buffer.drop 3) 3
  if i < length ∧ (buffer.getD i 0 = 77 ∨ buffer.getD i 0 = 109) then i + 1 else 0

/-! ## The callbacks and the state of the input loop -/

/-- One invocation of a callback passed to `process_input`, with its event arguments. -/
inductive Callback where
  | mouse_left_event (x y : Int)
  | mouse_right_event
  | arrow_key (arrow_key : Nat)
  | printable_char (c : Nat)
deriving DecidableEq, Repr

/-- The file-level statics and the locals of `process_input` that live across
iterations of its outer loop. `input_buffer` holds the `input_buffer_length` pending
bytes. -/
structure LoopState where
  input_buffer : List Nat
  event : MouseEvent
  key_states : List Bool
  key_pressed_last_frame : List Bool
  unlock : Bool
deriving DecidableEq, Repr

/-- The state when `process_input` enters its loop for the first time:
`key_states = {false}`, `key_pressed_last_frame = {false}`, `unlock = true`,
`input_buffer_length = 0`, `event = {0, 1, false, false, 0, 0}`. -/
def initial_state : LoopState :=
  { input_buffer := []
    event := ⟨0, 1, false, false, 0, 0⟩
    key_states := List.replicate MAX_KEYS false
    key_pressed_last_frame := List.replicate MAX_KEYS false
    unlock := true }

/-- The function `bool get_key_state(unsigned char key)`. -/
def get_key_state (st : LoopState) (key : Nat) : Bool :=
  st.key_pressed_last_frame.getD key false

/-- The function `void release_key(unsigned char key)`. -/
def release_key (st : LoopState) (key : Nat) : LoopState :=
  { st with key_pressed_last_frame := st.key_pressed_last_frame.set key false }

/-- The function `void lock_inputs()`. -/
def lock_inputs (st : LoopState) : LoopState := { st with unlock := false }

/-- The function `void unlock_inputs()`. -/
def unlock_inputs (st : LoopState) : LoopState := { st with unlock := true }

/-! ## `process_input` -/

/-- The variables the inner `while (processed < input_buffer_length)` loop updates. -/
structure Scan where
  processed : Nat
  event : MouseEvent
  key_states : List Bool
deriving DecidableEq, Repr

/-- The callbacks of the mouse branch: `if (unlock) { if (event.left_click) ...;
if (event.right_click) ...; }`. -/
def mouse_callbacks (unlock : Bool) (event : MouseEvent) : List Callback :=
  if unlock then
    (if event.left_click ≠ 0 then
      [Callback.mouse_left_event event.target_x event.target_y] else []) ++
    (if event.right_click ≠ 0 then [Callback.mouse_right_event] else [])
  else []

/-- The body of the inner loop on the window `buffer = input_buffer + processed`,
`length = input_buffer_length - processed`: `none` for `break` (wait for more data),
otherwise the number of bytes by which `processed` advances, the event, the
`key_states` table and the callbacks invoked. -/
def scan_item (unlock : Bool) (buffer : List Nat) (length : Nat) (event : MouseEvent)
    (key_states : List Bool) : Option (Nat × MouseEvent × List Bool × List Callback) :=
  if is_mouse_event buffer length then
    let mouse_event_length := get_mouse_event_length buffer length
    if mouse_event_length > 0 then
      let event := parse_sgr_mouse_event buffer event
      some (mouse_event_length, event, key_states, mouse_callbacks unlock event)
    else none
  else if is_arrow_key buffer length then
    some (3, event, key_states,
      if unlock then [Callback.arrow_key (buffer.getD 2 0)] else [])
  else if (32 ≤ buffer.getD 0 0 ∧ buffer.getD 0 0 ≤ 126) ∨ buffer.getD 0 0 = 10 ∨
      buffer.getD 0 0 = 13 then
    let key := buffer.getD 0 0
    some (1, event, key_states.set key true,
      if unlock then [Callback.printable_char key] else [])
  else
    some (1, event, key_states, [])

/-- One iteration of the inner loop, entered with `processed < input_buffer_length`. -/
def scan_step (unlock : Bool) (input_buffer : List Nat) (s : Scan) :
    Option (Scan × List Callback) :=
  match scan_item unlock (input_buffer.drop s.processed)
      (input_buffer.length - s.processed) s.event s.key_states with
  | none => none
  | some (n, event, key_states, cbs) =>
    some ({ processed := s.processed + n, event := event, key_states := key_states }, cbs)

/-- The inner loop, run for at most `fuel` iterations: the variables at the exit and
the callbacks invoked, in order. `input_buffer.length` iterations are always enough,
since every iteration that does not leave the loop advances `processed`. -/
def scan_loop (unlock : Bool) (input_buffer : List Nat) : Nat → Scan → Scan × List Callback
  | 0, s => (s, [])
  | fuel + 1, s =>
    if s.processed < input_buffer.length then
      match scan_step unlock input_buffer s with
      | none => (s, [])
      | some (s1, cbs) =>
        let r := scan_loop unlock input_buffer fuel s1
        (r.1, cbs ++ r.2)
    else (s, [])

/-- One iteration of the outer `while (1)` of `process_input`, where `read` returned
the bytes `chunk` (`bytes_read = chunk.length`; an empty chunk stands for
`bytes_read <= 0`). The result is the state at the end of the iteration and the
callbacks invoked during it. -/
def process_input_iter (st : LoopState) (chunk : List Nat) : LoopState × List Callback :=
  if chunk.length = 0 then (st, [])
  else if st.input_buffer.length + chunk.length < MAX_BUFFER_SIZE then
    let input_buffer := st.input_buffer ++ chunk
    let r := scan_loop st.unlock input_buffer input_buffer.length
      { processed := 0, event := st.event, key_states := st.key_states }
    ({ input_buffer := input_buffer.drop r.1.processed
       event := r.1.event
       key_states := List.replicate MAX_KEYS false
       key_pressed_last_frame := r.1.key_states
       unlock := st.unlock }, r.2)
  else
    ({ st with input_buffer := [] }, [])

/-! ## Vocabulary of the properties: wire formats, scenarios and reachable states -/

/-- The number written by a string of decimal digits. -/
def dec_value (ds : List Nat) : Nat := ds.foldl (fun acc c => acc * 10 + (c - 48)) 0

/-- A non-empty string of decimal digits. -/
def is_number (ds : List Nat) : Prop := ds ≠ [] ∧ ∀ c ∈ ds, isdigit c = true

instance (ds : List Nat) : Decidable (is_number ds) := by
  unfold is_number; infer_instance

/-- The report `ESC [ < button ; x ; y t`, the three numbers given by their digits;
the terminator `t` is `'M'` (77) for a press and `'m'` (109) for a release. -/
def sgr_sequence (button x y : List Nat) (t : Nat) : List Nat :=
  [27, 91, 60] ++ button ++ 59 :: x ++ 59 :: y ++ [t]

/-- The left clicks reported in total by `n` successive calls of
`parse_sgr_mouse_event` on the same `buffer`, starting from `event`. -/
def left_clicks_of_repeats (buffer : List Nat) : Nat → MouseEvent → Int
  | 0, _ => 0
  | n + 1, event =>
    (parse_sgr_mouse_event buffer event).left_click
      + left_clicks_of_repeats buffer n (parse_sgr_mouse_event buffer event)

/-- The numbers of a well-formed left-button report: three non-empty digit strings,
the button number below 64 with its two low bits clear. -/
def is_left_report (button x y : List Nat) : Prop :=
  is_number button ∧ is_number x ∧ is_number y ∧
    dec_value button < 64 ∧ dec_value button &&& 3 = 0

instance (button x y : List Nat) : Decidable (is_left_report button x y) := by
  unfold is_left_report; infer_instance

/-- A byte that the scan treats as a plain key: printable ASCII `32..126`, `'\n'` or
`'\r'`. -/
def is_plain_key (c : Nat) : Prop := (32 ≤ c ∧ c ≤ 126) ∨ c = 10 ∨ c = 13

instance (c : Nat) : Decidable (is_plain_key c) := by
  unfold is_plain_key; infer_instance

/-- A direction byte of an arrow-key sequence: `'A'`, `'B'`, `'C'` or `'D'`. -/
def is_direction (c : Nat) : Prop := c = 65 ∨ c = 66 ∨ c = 67 ∨ c = 68

instance (c : Nat) : Decidable (is_direction c) := by
  unfold is_direction; infer_instance

/-- An item on the wire that is not a mouse report: an arrow-key sequence `ESC [ X`
or a single plain key byte. -/
inductive Item where
  | arrow (direction : Nat)
  | key (c : Nat)
deriving DecidableEq, Repr

/-- The bytes of an item. -/
def Item.bytes : Item → List Nat
  | Item.arrow direction => [27, 91, direction]
  | Item.key c => [c]

/-- The callback an item stands for. -/
def Item.callback : Item → Callback
  | Item.arrow direction => Callback.arrow_key direction
  | Item.key c => Callback.printable_char c

/-- An item is well formed when its direction byte, or its key byte, is one. -/
def Item.well_formed : Item → Prop
  | Item.arrow direction => is_direction direction
  | Item.key c => is_plain_key c

instance (it : Item) : Decidable it.well_formed := by
  cases it <;> unfold Item.well_formed <;> infer_instance

/-- The bytes of a list of items, in order. -/
def wire : List Item → List Nat
  | [] => []
  | it :: items => it.bytes ++ wire items

/-- The `key_states` table after the plain keys among the items have been marked. -/
def mark_keys : List Item → List Bool → List Bool
  | [], key_states => key_states
  | Item.arrow _ :: items, key_states => mark_keys items key_states
  | Item.key c :: items, key_states => mark_keys items (key_states.set c true)

/-- What can happen to the state of the input manager from outside the scan: `read`
returns a chunk to `process_input`, or one of `lock_inputs`, `unlock_inputs`,
`release_key` is called between two iterations. -/
inductive Action where
  | read (chunk : List Nat)
  | lock
  | unlock
  | release (key : Nat)
deriving DecidableEq, Repr

/-- The effect of one action: the next state and the callbacks invoked. -/
def act (st : LoopState) : Action → LoopState × List Callback
  | Action.read chunk => process_input_iter st chunk
  | Action.lock => (lock_inputs st, [])
  | Action.unlock => (unlock_inputs st, [])
  | Action.release key => (release_key st key, [])

/-- The effect of a list of actions, in order; the callbacks are concatenated. -/
def run : LoopState → List Action → LoopState × List Callback
  | st, [] => (st, [])
  | st, a :: rest => ((run (act st a).1 rest).1, (act st a).2 ++ (run (act st a).1 rest).2)

/-- A byte that `get_mouse_event_length` scans over: a decimal digit or `';'`. -/
def is_body_byte (c : Nat) : Prop := isdigit c = true ∨ c = 59

instance (c : Nat) : Decidable (is_body_byte c) := by
  unfold is_body_byte; infer_instance

/-- The shape of the receive buffer between two iterations of the outer loop: at most
1023 bytes, and either none, or bytes that begin with `ESC [ <` on which
`get_mouse_event_length` (with the whole buffer as window) returns 0. -/
def pending_invariant (input_buffer : List Nat) : Prop :=
  input_buffer.length ≤ 1023 ∧
    (input_buffer = [] ∨
      (input_buffer.take 3 = [27, 91, 60] ∧
        get_mouse_event_length input_buffer input_buffer.length = 0))

instance (input_buffer : List Nat) : Decidable (pending_invariant input_buffer) := by
  unfold pending_invariant; infer_instance

/-- The callback `cb` is the one the scan decodes at the front of `window`: the
printable-char callback on the first byte, a plain key; the arrow-key callback on the
direction byte of an arrow-key sequence; a click callback on a report that the probe
accepts and in which `sscanf` reads a press (terminator `M`) of that button, the left
click with the coordinates read there. -/
def decoded_at (cb : Callback) (window : List Nat) : Prop :=
  match cb with
  | Callback.printable_char c =>
    window ≠ [] ∧ window.getD 0 0 = c ∧ is_plain_key c
  | Callback.arrow_key direction =>
    is_arrow_key window window.length = true ∧ window.getD 2 0 = direction
  | Callback.mouse_left_event px py =>
    is_mouse_event window window.length = true ∧
    0 < get_mouse_event_length window window.length ∧
    ∃ button x y, sscanf_sgr window = some (button, x, y, 77) ∧ button < 64 ∧
      Int.land button 3 = 0 ∧ px = (Int.tdiv x 2) * 2 ∧ py = y
  | Callback.mouse_right_event =>
    is_mouse_event window window.length = true ∧
    0 < get_mouse_event_length window window.length ∧
    ∃ button x y, sscanf_sgr window = some (button, x, y, 77) ∧ button < 64 ∧
      Int.land button 3 = 2

/-- Two events with the same button latches; the click flags and the target
coordinates may differ. -/
def same_latches (e1 e2 : MouseEvent) : Prop :=
  e1.left_just_pressed = e2.left_just_pressed ∧
    e1.right_just_pressed = e2.right_just_pressed

/-! ## Lemmas on the `sscanf` model -/

theorem isdigit_ne_zero {c : Nat} (h : isdigit c = true) : c ≠ 0 := by
  intro h0; subst h0; simp [isdigit] at h

theorem isdigit_not_space {c : Nat} (h : isdigit c = true) : isspace c = false := by
  simp only [isdigit, Bool.and_eq_true, decide_eq_true_eq] at h
  simp only [isspace, Bool.or_eq_false_iff, Bool.and_eq_false_iff, beq_eq_false_iff_ne,
    decide_eq_false_iff_not]
  omega

theorem scan_digits_append (ds : List Nat) (hds : ∀ c ∈ ds, isdigit c = true) (t : Nat)
    (ht : isdigit t = false) (rest : List Nat) (acc : Nat) :
    scan_digits (ds ++ t :: rest) acc
      = (ds.foldl (fun a c => a * 10 + (c - 48)) acc, t :: rest) := by
  induction ds generalizing acc with
  | nil => simp [scan_digits, ht]
  | cons d ds ih =>
    have hd : isdigit d = true := hds d (List.mem_cons_self _ _)
    have hds1 : ∀ c ∈ ds, isdigit c = true := fun c hc => hds c (List.mem_cons_of_mem _ hc)
    simp [scan_digits, hd, ih hds1]

theorem scan_int_number (ds : List Nat) (hds : is_number ds) (t : Nat)
    (ht : isdigit t = false) (rest : List Nat) :
    scan_int (ds ++ t :: rest) = some (store_int (dec_value ds), t :: rest) := by
  obtain ⟨hne, hall⟩ := hds
  cases ds with
  | nil => exact absurd rfl hne
  | cons d ds =>
    have hd : isdigit d = true := hall d (List.mem_cons_self _ _)
    have hsp : isspace d = false := isdigit_not_space hd
    have h45 : d ≠ 45 := by
      intro h; subst h; simp [isdigit] at hd
    have h43 : d ≠ 43 := by
      intro h; subst h; simp [isdigit] at hd
    have hscan := scan_digits_append (d :: ds) hall t ht rest 0
    have hskip : skip_space (d :: ds ++ t :: rest) = d :: (ds ++ t :: rest) := by
      simp [skip_space, hsp]
    unfold scan_int
    rw [hskip]
    have hsig : (match d :: (ds ++ t :: rest) with
        | 45 :: r => (true, r)
        | 43 :: r => (false, r)
        | _ => (false, d :: (ds ++ t :: rest))) = (false, d :: (ds ++ t :: rest)) := by
      split
      · rename_i heq; simp at heq; exact absurd heq.1 h45
      · rename_i heq; simp at heq; exact absurd heq.1 h43
      · rfl
    simp only [hsig]
    simp only [List.cons_append] at hscan
    simp [hd, hscan, dec_value]

theorem store_int_of_lt (n : Nat) (h : n < 2 ^ 31) : store_int (n : Int) = (n : Int) := by
  unfold store_int
  have h1 : (n : Int) < 2 ^ 31 := by exact_mod_cast h
  have h0 : (0 : Int) ≤ (n : Int) := Int.natCast_nonneg n
  have hmin : min (2 ^ 63 - 1 : Int) (n : Int) = (n : Int) := by
    apply min_eq_right; norm_num at h1 ⊢; omega
  have hmax : max (-(2 ^ 63) : Int) (n : Int) = (n : Int) := by
    apply max_eq_right; norm_num; omega
  simp only [hmin, hmax]
  norm_num at h1 ⊢
  omega

theorem c_str_append (s rest : List Nat) (hs : ∀ c ∈ s, c ≠ 0) :
    c_str (s ++ rest) = s ++ c_str rest := by
  induction s with
  | nil => rfl
  | cons c s ih =>
    have hc : c ≠ 0 := hs c (List.mem_cons_self _ _)
    have hs1 : ∀ d ∈ s, d ≠ 0 := fun d hd => hs d (List.mem_cons_of_mem _ hd)
    have ih1 := ih hs1
    simp only [c_str] at ih1 ⊢
    simp [List.takeWhile_cons, hc, ih1]

theorem sgr_sequence_ne_zero (button x y : List Nat) (t : Nat) (hb : is_number button)
    (hx : is_number x) (hy : is_number y) (ht : t ≠ 0) :
    ∀ c ∈ sgr_sequence button x y t, c ≠ 0 := by
  intro c hc
  have hmem : c = 27 ∨ c = 91 ∨ c = 60 ∨ c = 59 ∨ c = t ∨ c ∈ button ∨ c ∈ x ∨ c ∈ y := by
    simp only [sgr_sequence, List.mem_append, List.mem_cons, List.mem_singleton,
      List.not_mem_nil, or_false] at hc
    tauto
  rcases hmem with h | h | h | h | h | h | h | h
  · omega
  · omega
  · omega
  · omega
  · omega
  · exact isdigit_ne_zero (hb.2 c h)
  · exact isdigit_ne_zero (hx.2 c h)
  · exact isdigit_ne_zero (hy.2 c h)

/-- On a well-formed report all four conversions succeed: the three numbers are
stored through `store_int` and `event_type` is the terminator. -/
theorem sscanf_sgr_sequence (button x y : List Nat) (t : Nat) (rest : List Nat)
    (hb : is_number button) (hx : is_number x) (hy : is_number y)
    (ht : t = 77 ∨ t = 109) :
    sscanf_sgr (sgr_sequence button x y t ++ rest)
      = some (store_int (dec_value button), store_int (dec_value x),
          store_int (dec_value y), t) := by
  have ht0 : t ≠ 0 := by omega
  have htd : isdigit t = false := by
    rcases ht with h | h <;> subst h <;> decide
  have h59 : isdigit 59 = false := by decide
  unfold sscanf_sgr
  rw [c_str_append _ _ (sgr_sequence_ne_zero button x y t hb hx hy ht0)]
  have e1 : sgr_sequence button x y t ++ c_str rest
      = 27 :: 91 :: 60 :: (button ++ 59 :: (x ++ 59 :: (y ++ t :: c_str rest))) := by
    simp [sgr_sequence]
  rw [e1]
  simp [match_char, scan_int_number button hb 59 h59, scan_int_number x hx 59 h59,
    scan_int_number y hy t htd, scan_char]

/-! ## `parse_sgr_mouse_event` on left-button reports -/

theorem store_int_button (button : List Nat) (h : dec_value button < 64) :
    store_int (dec_value button) = (dec_value button : Int) :=
  store_int_of_lt _ (by omega)

/-- The decode of a well-formed report whose button number is below 64 with the two
low bits clear, written out by cases on the terminator and the latch. -/
theorem parse_left_button (ev : MouseEvent) (button x y : List Nat) (t : Nat)
    (rest : List Nat) (hb : is_number button) (hx : is_number x) (hy : is_number y)
    (ht : t = 77 ∨ t = 109) (hb64 : dec_value button < 64)
    (hb3 : dec_value button &&& 3 = 0) :
    parse_sgr_mouse_event (sgr_sequence button x y t ++ rest) ev
      = if t = 77 ∧ ev.left_just_pressed = false then
          { ev with
            left_click := 1
            right_click := 0
            left_just_pressed := true
            target_x := (Int.tdiv (store_int (dec_value x)) 2) * 2
            target_y := store_int (dec_value y) }
        else if t = 109 then
          { ev with left_click := 0, right_click := 0, left_just_pressed := false }
        else { ev with left_click := 0, right_click := 0 } := by
  have hland : Int.land (dec_value button : Int) 3 = ((dec_value button &&& 3 : Nat) : Int) :=
    rfl
  have h64 : ¬ ((dec_value button : Int) ≥ 64) := by
    have : (dec_value button : Int) < 64 := by exact_mod_cast hb64
    omega
  unfold parse_sgr_mouse_event
  rw [sscanf_sgr_sequence button x y t rest hb hx hy ht, store_int_button button hb64]
  simp only [h64, if_false, hland, hb3, Nat.cast_zero, if_true]

/-- C2, amended to coordinates that fit an `int`: from a state with
`left_just_pressed = false`, decoding `ESC [ < button ; x ; y M` with `button < 64`,
`(button & 3) = 0` and `x, y < 2^31` reports `left_click = 1`, sets the latch, stores
`target_y = y` and `target_x = 2 * (x / 2)`, which is even, at most `x`, and `0` or
`1` below `x`. -/
theorem parse_left_press (ev : MouseEvent) (button x y rest : List Nat)
    (hb : is_number button) (hx : is_number x) (hy : is_number y)
    (hb64 : dec_value button < 64) (hb3 : dec_value button &&& 3 = 0)
    (hxr : dec_value x < 2 ^ 31) (hyr : dec_value y < 2 ^ 31)
    (hl : ev.left_just_pressed = false) :
    (parse_sgr_mouse_event (sgr_sequence button x y 77 ++ rest) ev).left_click = 1 ∧
    (parse_sgr_mouse_event (sgr_sequence button x y 77 ++ rest) ev).left_just_pressed
      = true ∧
    (parse_sgr_mouse_event (sgr_sequence button x y 77 ++ rest) ev).target_y
      = (dec_value y : Int) ∧
    (parse_sgr_mouse_event (sgr_sequence button x y 77 ++ rest) ev).target_x
      = ((2 * (dec_value x / 2) : Nat) : Int) ∧
    (parse_sgr_mouse_event (sgr_sequence button x y 77 ++ rest) ev).target_x % 2 = 0 ∧
    (parse_sgr_mouse_event (sgr_sequence button x y 77 ++ rest) ev).target_x
      ≤ (dec_value x : Int) ∧
    ((dec_value x : Int)
        - (parse_sgr_mouse_event (sgr_sequence button x y 77 ++ rest) ev).target_x = 0 ∨
      (dec_value x : Int)
        - (parse_sgr_mouse_event (sgr_sequence button x y 77 ++ rest) ev).target_x = 1) := by
  have hdiv : Int.tdiv (dec_value x : Int) 2 = ((dec_value x / 2 : Nat) : Int) := rfl
  rw [parse_left_button ev button x y 77 rest hb hx hy (Or.inl rfl) hb64 hb3,
    store_int_of_lt _ hxr, store_int_of_lt _ hyr]
  simp only [hl, and_self, if_true, hdiv]
  refine ⟨trivial, trivial, trivial, ?_, ?_, ?_, ?_⟩
  · push_cast; ring
  · omega
  · omega
  · omega

/-- The instance `ESC[<0;11;5M` on the initial event: a click at `(10, 5)`. -/
theorem parse_left_press_witness :
    (parse_sgr_mouse_event (sgr_sequence [48] [49, 49] [53] 77 ++ [])
        ⟨0, 1, false, false, 0, 0⟩).left_click = 1 ∧
    (parse_sgr_mouse_event (sgr_sequence [48] [49, 49] [53] 77 ++ [])
        ⟨0, 1, false, false, 0, 0⟩).target_x = 10 ∧
    (parse_sgr_mouse_event (sgr_sequence [48] [49, 49] [53] 77 ++ [])
        ⟨0, 1, false, false, 0, 0⟩).target_y = 5 := by
  have h := parse_left_press ⟨0, 1, false, false, 0, 0⟩ [48] [49, 49] [53] []
    (by decide) (by decide) (by decide) (by decide) (by decide) (by decide) (by decide) rfl
  exact ⟨h.1, h.2.2.2.1, h.2.2.1⟩

/-- C2 as stated fails when `x` does not fit an `int`: `ESC[<0;2147483648;5M` is a
complete left press with non-negative decimal coordinates, decoded from the initial
event, and `target_x` is `-2147483648`, not `2 * (2147483648 / 2)`. -/
theorem parse_left_press_overflow :
    is_number [48] ∧ is_number [50, 49, 52, 55, 52, 56, 51, 54, 52, 56] ∧ is_number [53] ∧
    dec_value [48] < 64 ∧ dec_value [48] &&& 3 = 0 ∧
    dec_value [50, 49, 52, 55, 52, 56, 51, 54, 52, 56] = 2147483648 ∧
    (parse_sgr_mouse_event
      (sgr_sequence [48] [50, 49, 52, 55, 52, 56, 51, 54, 52, 56] [53] 77)
      ⟨0, 1, false, false, 0, 0⟩).target_x = -2147483648 ∧
    (parse_sgr_mouse_event
      (sgr_sequence [48] [50, 49, 52, 55, 52, 56, 51, 54, 52, 56] [53] 77)
      ⟨0, 1, false, false, 0, 0⟩).target_x ≠ ((2 * (2147483648 / 2) : Nat) : Int) := by
  decide

theorem left_clicks_of_repeats_held (buffer : List Nat)
    (hheld : ∀ ev : MouseEvent, ev.left_just_pressed = true →
      parse_sgr_mouse_event buffer ev = { ev with left_click := 0, right_click := 0 })
    (n : Nat) (ev : MouseEvent) (hl : ev.left_just_pressed = true) :
    left_clicks_of_repeats buffer n ev = 0 := by
  induction n generalizing ev with
  | zero => rfl
  | succ n ih =>
    have h1 : (parse_sgr_mouse_event buffer ev).left_click = 0 := by rw [hheld ev hl]
    have h2 : (parse_sgr_mouse_event buffer ev).left_just_pressed = true := by
      rw [hheld ev hl]; exact hl
    simp only [left_clicks_of_repeats, ih _ h2, h1, add_zero]

/-- C3: while the left latch is set, decoding a left press (`button < 64`,
`(button & 3) = 0`, terminator `M`, any coordinates) reports `left_click = 0` and
changes nothing but the two click flags, which are 0; so `n` successive decodes
of the same press from a latched state report no click, and `n + 1` successive
decodes from an unlatched state report exactly one click in total. -/
theorem parse_left_press_held (ev : MouseEvent) (button x y rest : List Nat)
    (hb : is_number button) (hx : is_number x) (hy : is_number y)
    (hb64 : dec_value button < 64) (hb3 : dec_value button &&& 3 = 0) :
    (ev.left_just_pressed = true →
      parse_sgr_mouse_event (sgr_sequence button x y 77 ++ rest) ev
          = { ev with left_click := 0, right_click := 0 } ∧
      (parse_sgr_mouse_event (sgr_sequence button x y 77 ++ rest) ev).left_click = 0 ∧
      (parse_sgr_mouse_event (sgr_sequence button x y 77 ++ rest) ev).target_x
        = ev.target_x ∧
      (parse_sgr_mouse_event (sgr_sequence button x y 77 ++ rest) ev).target_y
        = ev.target_y ∧
      (parse_sgr_mouse_event (sgr_sequence button x y 77 ++ rest) ev).left_just_pressed
        = true ∧
      (parse_sgr_mouse_event (sgr_sequence button x y 77 ++ rest) ev).right_just_pressed
        = ev.right_just_pressed) ∧
    (ev.left_just_pressed = true → ∀ n : Nat,
      left_clicks_of_repeats (sgr_sequence button x y 77 ++ rest) n ev = 0) ∧
    (ev.left_just_pressed = false → ∀ n : Nat,
      left_clicks_of_repeats (sgr_sequence button x y 77 ++ rest) (n + 1) ev = 1) := by
  have hheld : ∀ e : MouseEvent, e.left_just_pressed = true →
      parse_sgr_mouse_event (sgr_sequence button x y 77 ++ rest) e
        = { e with left_click := 0, right_click := 0 } := by
    intro e he
    rw [parse_left_button e button x y 77 rest hb hx hy (Or.inl rfl) hb64 hb3]
    simp [he]
  refine ⟨fun hl => ?_, fun hl n => ?_, fun hl n => ?_⟩
  · rw [hheld ev hl]
    exact ⟨rfl, rfl, rfl, rfl, hl, rfl⟩
  · exact left_clicks_of_repeats_held _ hheld n ev hl
  · have hfirst := parse_left_button ev button x y 77 rest hb hx hy (Or.inl rfl) hb64 hb3
    simp only [hl, and_self, if_true] at hfirst
    have hlatch : (parse_sgr_mouse_event (sgr_sequence button x y 77 ++ rest)
        ev).left_just_pressed = true := by rw [hfirst]
    have hclick : (parse_sgr_mouse_event (sgr_sequence button x y 77 ++ rest)
        ev).left_click = 1 := by rw [hfirst]
    simp only [left_clicks_of_repeats, hclick,
      left_clicks_of_repeats_held _ hheld n _ hlatch, add_zero]

/-- The press `ESC[<0;10;5M` decoded on a held button, then three times from rest. -/
theorem parse_left_press_held_witness :
    (parse_sgr_mouse_event (sgr_sequence [48] [49, 48] [53] 77 ++ [])
        ⟨10, 5, true, false, 1, 0⟩).left_click = 0 ∧
    left_clicks_of_repeats (sgr_sequence [48] [49, 48] [53] 77 ++ []) (2 + 1)
        ⟨0, 1, false, false, 0, 0⟩ = 1 :=
  ⟨((parse_left_press_held ⟨10, 5, true, false, 1, 0⟩ [48] [49, 48] [53] []
      (by decide) (by decide) (by decide) (by decide) (by decide)).1 rfl).2.1,
   (parse_left_press_held ⟨0, 1, false, false, 0, 0⟩ [48] [49, 48] [53] []
      (by decide) (by decide) (by decide) (by decide) (by decide)).2.2 rfl 2⟩

theorem parse_left_release (ev : MouseEvent) (button x y rest : List Nat)
    (h : is_left_report button x y) :
    parse_sgr_mouse_event (sgr_sequence button x y 109 ++ rest) ev
      = { ev with left_click := 0, right_click := 0, left_just_pressed := false } := by
  obtain ⟨hb, hx, hy, hb64, hb3⟩ := h
  rw [parse_left_button ev button x y 109 rest hb hx hy (Or.inr rfl) hb64 hb3]
  simp

theorem parse_left_press_click (ev : MouseEvent) (button x y rest : List Nat)
    (h : is_left_report button x y) :
    (parse_sgr_mouse_event (sgr_sequence button x y 77 ++ rest) ev).left_click
      = if ev.left_just_pressed = false then 1 else 0 := by
  obtain ⟨hb, hx, hy, hb64, hb3⟩ := h
  rw [parse_left_button ev button x y 77 rest hb hx hy (Or.inl rfl) hb64 hb3]
  cases hl : ev.left_just_pressed <;> simp

/-- C4, amended in its last clause: from every event state, decoding a left-button
release (`button < 64`, `(button & 3) = 0`, terminator `m`) clears
`left_just_pressed` and reports `left_click = 0`, and a left-button press decoded
right after it reports `left_click = 1`. In the sequence press, release, press the
second decode reports no click and the third reports one, from every state; the first
reports a click when the sequence starts with `left_just_pressed = false`, and none
when it starts with `left_just_pressed = true`. -/
theorem parse_left_release_then_press (ev : MouseEvent)
    (b0 x0 y0 rest0 b1 x1 y1 rest1 b2 x2 y2 rest2 : List Nat)
    (h0 : is_left_report b0 x0 y0) (h1 : is_left_report b1 x1 y1)
    (h2 : is_left_report b2 x2 y2) :
    (parse_sgr_mouse_event (sgr_sequence b1 x1 y1 109 ++ rest1) ev).left_just_pressed
      = false ∧
    (parse_sgr_mouse_event (sgr_sequence b1 x1 y1 109 ++ rest1) ev).left_click = 0 ∧
    (parse_sgr_mouse_event (sgr_sequence b2 x2 y2 77 ++ rest2)
      (parse_sgr_mouse_event (sgr_sequence b1 x1 y1 109 ++ rest1) ev)).left_click = 1 ∧
    (ev.left_just_pressed = false →
      (parse_sgr_mouse_event (sgr_sequence b0 x0 y0 77 ++ rest0) ev).left_click = 1) ∧
    (parse_sgr_mouse_event (sgr_sequence b1 x1 y1 109 ++ rest1)
      (parse_sgr_mouse_event (sgr_sequence b0 x0 y0 77 ++ rest0) ev)).left_click = 0 ∧
    (parse_sgr_mouse_event (sgr_sequence b2 x2 y2 77 ++ rest2)
      (parse_sgr_mouse_event (sgr_sequence b1 x1 y1 109 ++ rest1)
        (parse_sgr_mouse_event (sgr_sequence b0 x0 y0 77 ++ rest0) ev))).left_click = 1 ∧
    (ev.left_just_pressed = true →
      (parse_sgr_mouse_event (sgr_sequence b0 x0 y0 77 ++ rest0) ev).left_click = 0) := by
  refine ⟨?_, ?_, ?_, ?_, ?_, ?_, ?_⟩
  · rw [parse_left_release ev b1 x1 y1 rest1 h1]
  · rw [parse_left_release ev b1 x1 y1 rest1 h1]
  · rw [parse_left_press_click _ b2 x2 y2 rest2 h2, parse_left_release ev b1 x1 y1 rest1 h1]
    simp
  · intro hl
    rw [parse_left_press_click ev b0 x0 y0 rest0 h0]
    simp [hl]
  · rw [parse_left_release _ b1 x1 y1 rest1 h1]
  · rw [parse_left_press_click _ b2 x2 y2 rest2 h2, parse_left_release _ b1 x1 y1 rest1 h1]
    simp
  · intro hl
    rw [parse_left_press_click ev b0 x0 y0 rest0 h0]
    simp [hl]

/-- The reports `ESC[<0;10;5M`, `ESC[<0;10;5m`, `ESC[<0;12;7M` decoded in this order
from the initial event: a click on the first and on the third. -/
theorem parse_left_release_then_press_witness :
    (parse_sgr_mouse_event (sgr_sequence [48] [49, 48] [53] 77 ++ [])
      ⟨0, 1, false, false, 0, 0⟩).left_click = 1 ∧
    (parse_sgr_mouse_event (sgr_sequence [48] [49, 48] [53] 109 ++ [])
      (parse_sgr_mouse_event (sgr_sequence [48] [49, 48] [53] 77 ++ [])
        ⟨0, 1, false, false, 0, 0⟩)).left_click = 0 ∧
    (parse_sgr_mouse_event (sgr_sequence [48] [49, 50] [55] 77 ++ [])
      (parse_sgr_mouse_event (sgr_sequence [48] [49, 48] [53] 109 ++ [])
        (parse_sgr_mouse_event (sgr_sequence [48] [49, 48] [53] 77 ++ [])
          ⟨0, 1, false, false, 0, 0⟩))).left_click = 1 := by
  have h := parse_left_release_then_press ⟨0, 1, false, false, 0, 0⟩
    [48] [49, 48] [53] [] [48] [49, 48] [53] [] [48] [49, 50] [55] []
    (by decide) (by decide) (by decide)
  exact ⟨h.2.2.2.1 rfl, h.2.2.2.2.1, h.2.2.2.2.2.1⟩

/-- C4 as stated fails from a state in which the left button is already held: in the
sequence `ESC[<0;10;5M`, `ESC[<0;10;5m`, `ESC[<0;10;5M` decoded from an event with
`left_just_pressed = true`, the first decode reports `left_click = 0`, so only the
third decode fires. -/
theorem press_release_press_from_held :
    is_left_report [48] [49, 48] [53] ∧
    (parse_sgr_mouse_event (sgr_sequence [48] [49, 48] [53] 77)
      ⟨0, 1, true, false, 0, 0⟩).left_click = 0 ∧
    (parse_sgr_mouse_event (sgr_sequence [48] [49, 48] [53] 77)
      ⟨0, 1, true, false, 0, 0⟩).left_click ≠ 1 ∧
    (parse_sgr_mouse_event (sgr_sequence [48] [49, 48] [53] 109)
      (parse_sgr_mouse_event (sgr_sequence [48] [49, 48] [53] 77)
        ⟨0, 1, true, false, 0, 0⟩)).left_click = 0 ∧
    (parse_sgr_mouse_event (sgr_sequence [48] [49, 48] [53] 77)
      (parse_sgr_mouse_event (sgr_sequence [48] [49, 48] [53] 109)
        (parse_sgr_mouse_event (sgr_sequence [48] [49, 48] [53] 77)
          ⟨0, 1, true, false, 0, 0⟩))).left_click = 1 := by
  decide

/-! ## The input gate -/

theorem mouse_callbacks_locked (event : MouseEvent) : mouse_callbacks false event = [] := rfl

/-- With the gate closed an iteration of the scan does what it does with the gate
open, except that no callback is invoked. -/
theorem scan_item_locked (buffer : List Nat) (length : Nat) (event : MouseEvent)
    (key_states : List Bool) :
    scan_item false buffer length event key_states
      = (scan_item true buffer length event key_states).map
          (fun r => (r.1, r.2.1, r.2.2.1, [])) := by
  unfold scan_item
  by_cases hm : is_mouse_event buffer length = true
  · by_cases hl : get_mouse_event_length buffer length > 0
    · simp [hm, hl, mouse_callbacks]
    · simp [hm, hl]
  · by_cases ha : is_arrow_key buffer length = true
    · simp [hm, ha]
    · by_cases hk : (32 ≤ buffer.getD 0 0 ∧ buffer.getD 0 0 ≤ 126) ∨ buffer.getD 0 0 = 10 ∨
          buffer.getD 0 0 = 13
      · simp only [hm, ha, hk, if_true, Bool.false_eq_true, if_false, Option.map_some']
      · simp only [hm, ha, hk, if_false, Bool.false_eq_true, Option.map_some']

theorem scan_step_locked (input_buffer : List Nat) (s : Scan) :
    scan_step false input_buffer s
      = (scan_step true input_buffer s).map (fun r => (r.1, [])) := by
  unfold scan_step
  rw [scan_item_locked]
  cases scan_item true (List.drop s.processed input_buffer)
      (input_buffer.length - s.processed) s.event s.key_states with
  | none => rfl
  | some r => rfl

theorem scan_loop_locked (input_buffer : List Nat) (fuel : Nat) (s : Scan) :
    scan_loop false input_buffer fuel s
      = ((scan_loop true input_buffer fuel s).1, []) := by
  induction fuel generalizing s with
  | zero => rfl
  | succ fuel ih =>
    unfold scan_loop
    by_cases hp : s.processed < input_buffer.length
    · simp only [hp, if_true]
      rw [scan_step_locked]
      cases scan_step true input_buffer s with
      | none => rfl
      | some r =>
        simp only [Option.map_some', ih r.1, List.nil_append]
    · simp only [hp, if_false]

/-- One outer iteration with the gate closed: no callback, and the state of the same
iteration with the gate open, up to the gate itself. -/
theorem process_input_iter_locked (st : LoopState) (chunk : List Nat) :
    process_input_iter (lock_inputs st) chunk
      = (lock_inputs (process_input_iter (unlock_inputs st) chunk).1, []) := by
  unfold process_input_iter lock_inputs unlock_inputs
  by_cases h0 : chunk.length = 0
  · simp only [h0, if_true]
  · by_cases hfit : st.input_buffer.length + chunk.length < MAX_BUFFER_SIZE
    · simp only [h0, if_false, hfit, if_true, scan_loop_locked]
    · simp only [h0, if_false, hfit]

/-! ## The scan on a window -/

/-- An iteration of the scan at `processed = pre.length` is `scan_item` on the rest
of the buffer. -/
theorem scan_step_window (unlock : Bool) (pre w : List Nat) (event : MouseEvent)
    (key_states : List Bool) :
    scan_step unlock (pre ++ w) ⟨pre.length, event, key_states⟩
      = (scan_item unlock w w.length event key_states).map
          (fun r => (⟨pre.length + r.1, r.2.1, r.2.2.1⟩, r.2.2.2)) := by
  unfold scan_step
  have hd : List.drop pre.length (pre ++ w) = w := List.drop_left pre w
  have hl : (pre ++ w).length - pre.length = w.length := by simp
  simp only [hd, hl]
  cases scan_item unlock w w.length event key_states with
  | none => rfl
  | some r => rfl

theorem scan_item_of_arrow (unlock : Bool) (buffer : List Nat) (length : Nat)
    (event : MouseEvent) (key_states : List Bool)
    (hm : is_mouse_event buffer length = false) (ha : is_arrow_key buffer length = true) :
    scan_item unlock buffer length event key_states
      = some (3, event, key_states,
          if unlock then [Callback.arrow_key (buffer.getD 2 0)] else []) := by
  unfold scan_item
  rw [hm, ha]
  simp

theorem scan_item_of_key (unlock : Bool) (buffer : List Nat) (length : Nat)
    (event : MouseEvent) (key_states : List Bool)
    (hm : is_mouse_event buffer length = false) (ha : is_arrow_key buffer length = false)
    (hk : is_plain_key (buffer.getD 0 0)) :
    scan_item unlock buffer length event key_states
      = some (1, event, key_states.set (buffer.getD 0 0) true,
          if unlock then [Callback.printable_char (buffer.getD 0 0)] else []) := by
  unfold is_plain_key at hk
  unfold scan_item
  rw [hm, ha]
  simp only [Bool.false_eq_true, if_false, hk, if_true]

theorem scan_item_of_other (unlock : Bool) (buffer : List Nat) (length : Nat)
    (event : MouseEvent) (key_states : List Bool)
    (hm : is_mouse_event buffer length = false) (ha : is_arrow_key buffer length = false)
    (hk : ¬ is_plain_key (buffer.getD 0 0)) :
    scan_item unlock buffer length event key_states = some (1, event, key_states, []) := by
  unfold is_plain_key at hk
  unfold scan_item
  rw [hm, ha]
  simp only [Bool.false_eq_true, if_false, hk]

theorem scan_item_arrow (unlock : Bool) (direction : Nat) (t : List Nat)
    (hd : is_direction direction) (event : MouseEvent) (key_states : List Bool) :
    scan_item unlock (27 :: 91 :: direction :: t) (27 :: 91 :: direction :: t).length
        event key_states
      = some (3, event, key_states,
          if unlock then [Callback.arrow_key direction] else []) := by
  have hne : direction ≠ 60 := by
    unfold is_direction at hd; omega
  have hm : is_mouse_event (27 :: 91 :: direction :: t)
      (27 :: 91 :: direction :: t).length = false := by
    simp [is_mouse_event, hne]
  have ha : is_arrow_key (27 :: 91 :: direction :: t)
      (27 :: 91 :: direction :: t).length = true := by
    unfold is_direction at hd
    simp only [is_arrow_key, List.length_cons, ge_iff_le, List.getD_cons_zero,
      List.getD_cons_succ, beq_self_eq_true, Bool.and_true, Bool.and_eq_true,
      decide_eq_true_eq, Bool.or_eq_true, beq_iff_eq]
    refine ⟨by omega, ?_⟩
    tauto
  rw [scan_item_of_arrow unlock _ _ event key_states hm ha]
  rfl

theorem scan_item_key (unlock : Bool) (c : Nat) (t : List Nat) (hc : is_plain_key c)
    (event : MouseEvent) (key_states : List Bool) :
    scan_item unlock (c :: t) (c :: t).length event key_states
      = some (1, event, key_states.set c true,
          if unlock then [Callback.printable_char c] else []) := by
  have hne : c ≠ 27 := by
    unfold is_plain_key at hc; omega
  have hm : is_mouse_event (c :: t) (c :: t).length = false := by
    simp [is_mouse_event, hne]
  have ha : is_arrow_key (c :: t) (c :: t).length = false := by
    simp [is_arrow_key, hne]
  rw [scan_item_of_key unlock _ _ event key_states hm ha hc]
  rfl

/-- C9: for a direction byte `X` in `A..D` and any trailing bytes `t`, one iteration
of the scan on the window `ESC [ X ++ t` with the gate open invokes the arrow-key
callback once, with argument `X`, leaves the event and the key table alone and
advances `processed` by 3, so that the next window is `t`. -/
theorem arrow_key_step (direction : Nat) (hd : is_direction direction)
    (pre t : List Nat) (event : MouseEvent) (key_states : List Bool) :
    scan_item true ([27, 91, direction] ++ t) ([27, 91, direction] ++ t).length event
        key_states
      = some (3, event, key_states, [Callback.arrow_key direction]) ∧
    scan_step true (pre ++ ([27, 91, direction] ++ t)) ⟨pre.length, event, key_states⟩
      = some (⟨pre.length + 3, event, key_states⟩, [Callback.arrow_key direction]) ∧
    List.drop (pre.length + 3) (pre ++ ([27, 91, direction] ++ t)) = t := by
  have hitem := scan_item_arrow true direction t hd event key_states
  refine ⟨by simpa using hitem, ?_, ?_⟩
  · rw [scan_step_window]
    have e : [27, 91, direction] ++ t = 27 :: 91 :: direction :: t := rfl
    rw [e, hitem]
    rfl
  · have e : pre ++ ([27, 91, direction] ++ t) = (pre ++ [27, 91, direction]) ++ t := by
      simp
    have hl : pre.length + 3 = (pre ++ [27, 91, direction]).length := by simp
    rw [e, hl, List.drop_left]

/-- The sequence `ESC [ A` followed by `xy`, scanned after one consumed byte. -/
theorem arrow_key_step_witness :
    scan_step true ([97] ++ ([27, 91, 65] ++ [120, 121]))
        ⟨[97].length, ⟨0, 1, false, false, 0, 0⟩, List.replicate MAX_KEYS false⟩
      = some (⟨[97].length + 3, ⟨0, 1, false, false, 0, 0⟩, List.replicate MAX_KEYS false⟩,
          [Callback.arrow_key 65]) :=
  (arrow_key_step 65 (by decide) [97] [120, 121] ⟨0, 1, false, false, 0, 0⟩
    (List.replicate MAX_KEYS false)).2.1

/-! ## A pass over arrow keys and plain keys -/

theorem scan_loop_done (unlock : Bool) (input_buffer : List Nat) (fuel : Nat) (s : Scan)
    (h : input_buffer.length ≤ s.processed) :
    scan_loop unlock input_buffer fuel s = (s, []) := by
  cases fuel with
  | zero => rfl
  | succ fuel =>
    unfold scan_loop
    have hp : ¬ s.processed < input_buffer.length := by omega
    simp only [hp, if_false]

theorem scan_loop_advance (unlock : Bool) (pre w : List Nat) (fuel : Nat)
    (event : MouseEvent) (key_states : List Bool) (n : Nat) (event1 : MouseEvent)
    (key_states1 : List Bool) (cbs : List Callback) (hw : w ≠ [])
    (hitem : scan_item unlock w w.length event key_states
      = some (n, event1, key_states1, cbs)) :
    scan_loop unlock (pre ++ w) (fuel + 1) ⟨pre.length, event, key_states⟩
      = ((scan_loop unlock (pre ++ w) fuel ⟨pre.length + n, event1, key_states1⟩).1,
          cbs ++ (scan_loop unlock (pre ++ w) fuel ⟨pre.length + n, event1, key_states1⟩).2)
    := by
  have hlen : pre.length < (pre ++ w).length := by
    have : 0 < w.length := List.length_pos.mpr hw
    simp only [List.length_append]; omega
  rw [scan_loop]
  simp only [hlen, if_true]
  rw [scan_step_window, hitem]
  rfl

theorem scan_loop_wait (unlock : Bool) (pre w : List Nat) (fuel : Nat)
    (event : MouseEvent) (key_states : List Bool)
    (hitem : scan_item unlock w w.length event key_states = none) :
    scan_loop unlock (pre ++ w) fuel ⟨pre.length, event, key_states⟩
      = (⟨pre.length, event, key_states⟩, []) := by
  cases fuel with
  | zero => rfl
  | succ fuel =>
    rw [scan_loop]
    by_cases hlen : pre.length < (pre ++ w).length
    · simp only [hlen, if_true]
      rw [scan_step_window, hitem]
      rfl
    · simp only [hlen, if_false]

theorem scan_loop_items (unlock : Bool) (items : List Item)
    (hwf : ∀ it ∈ items, it.well_formed) (pre : List Nat) (event : MouseEvent)
    (key_states : List Bool) (fuel : Nat) (hfuel : (wire items).length ≤ fuel) :
    scan_loop unlock (pre ++ wire items) fuel ⟨pre.length, event, key_states⟩
      = (⟨(pre ++ wire items).length, event, mark_keys items key_states⟩,
          if unlock then items.map Item.callback else []) := by
  induction items generalizing pre key_states fuel with
  | nil =>
    rw [scan_loop_done unlock _ fuel _ (by simp [wire])]
    simp [wire, mark_keys]
  | cons it items ih =>
    have hwf1 : ∀ i ∈ items, i.well_formed := fun i hi => hwf i (List.mem_cons_of_mem _ hi)
    have hit : it.well_formed := hwf it (List.mem_cons_self _ _)
    cases it with
    | arrow d =>
      have hw : wire (Item.arrow d :: items) = 27 :: 91 :: d :: wire items := rfl
      rw [hw] at hfuel ⊢
      obtain ⟨f, rfl⟩ : ∃ f, fuel = f + 1 := ⟨fuel - 1, by simp at hfuel; omega⟩
      rw [scan_loop_advance unlock pre _ f event key_states 3 event key_states _ (by simp)
        (scan_item_arrow unlock d (wire items) hit event key_states)]
      have e : pre ++ 27 :: 91 :: d :: wire items = (pre ++ [27, 91, d]) ++ wire items := by
        simp
      have hl : pre.length + 3 = (pre ++ [27, 91, d]).length := by simp
      rw [e, hl, ih hwf1 (pre ++ [27, 91, d]) key_states f (by simp at hfuel; omega)]
      cases unlock <;> simp [mark_keys, Item.callback]
    | key c =>
      have hw : wire (Item.key c :: items) = c :: wire items := rfl
      rw [hw] at hfuel ⊢
      obtain ⟨f, rfl⟩ : ∃ f, fuel = f + 1 := ⟨fuel - 1, by simp at hfuel; omega⟩
      rw [scan_loop_advance unlock pre _ f event key_states 1 event (key_states.set c true) _
        (by simp) (scan_item_key unlock c (wire items) hit event key_states)]
      have e : pre ++ c :: wire items = (pre ++ [c]) ++ wire items := by simp
      have hl : pre.length + 1 = (pre ++ [c]).length := by simp
      rw [e, hl, ih hwf1 (pre ++ [c]) (key_states.set c true) f (by simp at hfuel; omega)]
      cases unlock <;> simp [mark_keys, Item.callback]

/-- C10: one outer iteration of `process_input` over the bytes of a list of items,
each an arrow-key sequence `ESC [ X` with `X` in `A..D` or a plain key byte, read
into an empty buffer with the gate open, invokes exactly one callback per item
(arrow-key callback with `X`, printable-char callback with the byte), in the order
of the items, leaves the receive buffer empty and does not touch the event. The
bytes have to fit one pass: fewer than `MAX_BUFFER_SIZE`, which holds for whatever
one `read` of at most 128 bytes returns. -/
theorem dispatch_in_wire_order (st : LoopState) (items : List Item)
    (hempty : st.input_buffer = []) (hopen : st.unlock = true)
    (hwf : ∀ it ∈ items, it.well_formed)
    (hfit : (wire items).length < MAX_BUFFER_SIZE) :
    (process_input_iter st (wire items)).2 = items.map Item.callback ∧
    (process_input_iter st (wire items)).1.input_buffer = [] ∧
    (process_input_iter st (wire items)).1.event = st.event := by
  by_cases h0 : (wire items).length = 0
  · have hitems : items = [] := by
      cases items with
      | nil => rfl
      | cons it items => cases it <;> simp [wire, Item.bytes] at h0
    subst hitems
    simp [process_input_iter, wire, hempty]
  · have hloop := scan_loop_items true items hwf [] st.event st.key_states
      (wire items).length (le_refl _)
    simp only [List.nil_append, List.length_nil] at hloop
    unfold process_input_iter
    simp only [h0, if_false, hempty, List.length_nil, Nat.zero_add, hfit, if_true,
      List.nil_append, hopen, hloop]
    simp

/-- The bytes `ESC [ A`, `a`, `ESC [ D`, newline, read at once into the initial
state: four callbacks in this order. -/
theorem dispatch_in_wire_order_witness :
    (process_input_iter initial_state
        (wire [Item.arrow 65, Item.key 97, Item.arrow 68, Item.key 10])).2
      = [Callback.arrow_key 65, Callback.printable_char 97, Callback.arrow_key 68,
          Callback.printable_char 10] ∧
    (process_input_iter initial_state
        (wire [Item.arrow 65, Item.key 97, Item.arrow 68, Item.key 10])).1.input_buffer
      = [] :=
  ⟨(dispatch_in_wire_order initial_state
      [Item.arrow 65, Item.key 97, Item.arrow 68, Item.key 10] rfl rfl (by decide)
      (by decide)).1,
   (dispatch_in_wire_order initial_state
      [Item.arrow 65, Item.key 97, Item.arrow 68, Item.key 10] rfl rfl (by decide)
      (by decide)).2.1⟩

/-! ## The key tables -/

/-- The scan leaves the loop early exactly on a window that starts like a mouse report
and on which the length probe answers `0`. -/
theorem scan_item_eq_none_iff (unlock : Bool) (buffer : List Nat) (length : Nat)
    (event : MouseEvent) (key_states : List Bool) :
    scan_item unlock buffer length event key_states = none ↔
      (is_mouse_event buffer length = true ∧ get_mouse_event_length buffer length = 0) := by
  by_cases hm : is_mouse_event buffer length = true
  · unfold scan_item
    simp only [hm, if_true, true_and]
    by_cases hl : get_mouse_event_length buffer length > 0
    · simp only [hl, if_true]
      constructor
      · intro h; exact absurd h (by simp)
      · intro h; omega
    · simp only [hl, if_false, true_iff]
      omega
  · have hm1 : is_mouse_event buffer length = false := by simpa using hm
    simp only [hm1, Bool.false_eq_true, false_and, iff_false]
    by_cases ha : is_arrow_key buffer length = true
    · rw [scan_item_of_arrow unlock buffer length event key_states hm1 ha]; simp
    · have ha1 : is_arrow_key buffer length = false := by simpa using ha
      by_cases hk : is_plain_key (buffer.getD 0 0)
      · rw [scan_item_of_key unlock buffer length event key_states hm1 ha1 hk]; simp
      · rw [scan_item_of_other unlock buffer length event key_states hm1 ha1 hk]; simp

/-! ## Termination of the scan -/

theorem mouse_scan_ge (length : Nat) (bytes : List Nat) (i : Nat) :
    i ≤ mouse_scan length bytes i := by
  induction bytes generalizing i with
  | nil => simp [mouse_scan]
  | cons c rest ih =>
    rw [mouse_scan]
    split
    · exact Nat.le_trans (Nat.le_succ i) (ih (i + 1))
    · exact Nat.le_refl i

theorem mouse_scan_le (length : Nat) (bytes : List Nat) (i : Nat) (h : i ≤ length) :
    mouse_scan length bytes i ≤ length := by
  induction bytes generalizing i with
  | nil => simpa [mouse_scan] using h
  | cons c rest ih =>
    rw [mouse_scan]
    split
    · rename_i hc
      exact ih (i + 1) hc.1
    · exact h

/-- The value of `get_mouse_event_length` is `0` or lies in `4..length`. -/
theorem get_mouse_event_length_bounds (buffer : List Nat) (length : Nat) :
    get_mouse_event_length buffer length = 0 ∨
      (4 ≤ get_mouse_event_length buffer length ∧
        get_mouse_event_length buffer length ≤ length) := by
  unfold get_mouse_event_length
  have hge := mouse_scan_ge length (buffer.drop 3) 3
  simp only
  split
  · rename_i hc
    right
    omega
  · left; rfl

/-- An iteration of the scan that does not leave the loop advances by at least one
byte and, on a non-empty window, by no more than the window holds. -/
theorem scan_item_advance (unlock : Bool) (buffer : List Nat) (length : Nat)
    (event : MouseEvent) (key_states : List Bool)
    (r : Nat × MouseEvent × List Bool × List Callback) (hpos : 0 < length)
    (h : scan_item unlock buffer length event key_states = some r) :
    1 ≤ r.1 ∧ r.1 ≤ length := by
  by_cases hm : is_mouse_event buffer length = true
  · unfold scan_item at h
    simp only [hm, if_true] at h
    by_cases hl : get_mouse_event_length buffer length > 0
    · simp only [hl, if_true, Option.some.injEq] at h
      subst h
      rcases get_mouse_event_length_bounds buffer length with h0 | ⟨h4, hle⟩
      · omega
      · exact ⟨by omega, hle⟩
    · simp only [hl, if_false] at h
      exact absurd h (by simp)
  · have hm1 : is_mouse_event buffer length = false := by simpa using hm
    by_cases ha : is_arrow_key buffer length = true
    · rw [scan_item_of_arrow unlock buffer length event key_states hm1 ha] at h
      simp only [Option.some.injEq] at h
      subst h
      have h3 : 3 ≤ length := by
        simp only [is_arrow_key, Bool.and_eq_true, decide_eq_true_eq] at ha
        exact ha.1.1.1
      exact ⟨by omega, h3⟩
    · have ha1 : is_arrow_key buffer length = false := by simpa using ha
      by_cases hk : is_plain_key (buffer.getD 0 0)
      · rw [scan_item_of_key unlock buffer length event key_states hm1 ha1 hk] at h
        simp only [Option.some.injEq] at h
        subst h
        exact ⟨Nat.le_refl 1, hpos⟩
      · rw [scan_item_of_other unlock buffer length event key_states hm1 ha1 hk] at h
        simp only [Option.some.injEq] at h
        subst h
        exact ⟨Nat.le_refl 1, hpos⟩

theorem scan_step_advance (unlock : Bool) (input_buffer : List Nat) (s s1 : Scan)
    (cbs : List Callback) (hp : s.processed < input_buffer.length)
    (h : scan_step unlock input_buffer s = some (s1, cbs)) :
    s.processed < s1.processed ∧ s1.processed ≤ input_buffer.length := by
  unfold scan_step at h
  cases hitem : scan_item unlock (input_buffer.drop s.processed)
      (input_buffer.length - s.processed) s.event s.key_states with
  | none => simp [hitem] at h
  | some r =>
    obtain ⟨h1, h2⟩ := scan_item_advance unlock _ _ _ _ r (by omega) hitem
    simp only [hitem, Option.some.injEq, Prod.mk.injEq] at h
    obtain ⟨hs, -⟩ := h
    subst hs
    simp only
    omega

/-- The fuel given to `scan_loop` by `process_input_iter` is enough: with at least
`input_buffer.length - processed` iterations allowed the loop stops where the C loop
does, at `processed >= input_buffer_length` or at a `break`, with
`processed <= input_buffer_length`. -/
theorem scan_loop_exit (unlock : Bool) (input_buffer : List Nat) (fuel : Nat) (s : Scan)
    (hfuel : input_buffer.length - s.processed ≤ fuel)
    (hs : s.processed ≤ input_buffer.length) :
    (scan_loop unlock input_buffer fuel s).1.processed ≤ input_buffer.length ∧
    (input_buffer.length ≤ (scan_loop unlock input_buffer fuel s).1.processed ∨
      scan_step unlock input_buffer (scan_loop unlock input_buffer fuel s).1 = none) := by
  induction fuel generalizing s with
  | zero =>
    simp only [scan_loop]
    exact ⟨hs, Or.inl (by omega)⟩
  | succ fuel ih =>
    rw [scan_loop]
    by_cases hp : s.processed < input_buffer.length
    · simp only [hp, if_true]
      cases hstep : scan_step unlock input_buffer s with
      | none => exact ⟨hs, Or.inr hstep⟩
      | some r =>
        obtain ⟨h1, h2⟩ := scan_step_advance unlock input_buffer s r.1 r.2 hp hstep
        exact ih r.1 (by omega) h2
    · simp only [hp, if_false]
      exact ⟨hs, Or.inl (by omega)⟩

/-- Fuel beyond `input_buffer.length - processed` does not change the result. -/
theorem scan_loop_fuel (unlock : Bool) (input_buffer : List Nat) (fuel1 fuel2 : Nat)
    (s : Scan) (h1 : input_buffer.length - s.processed ≤ fuel1)
    (h2 : input_buffer.length - s.processed ≤ fuel2) :
    scan_loop unlock input_buffer fuel1 s = scan_loop unlock input_buffer fuel2 s := by
  induction fuel1 generalizing fuel2 s with
  | zero =>
    rw [scan_loop_done unlock input_buffer 0 s (by omega),
      scan_loop_done unlock input_buffer fuel2 s (by omega)]
  | succ fuel1 ih =>
    by_cases hp : s.processed < input_buffer.length
    · obtain ⟨m, rfl⟩ : ∃ m, fuel2 = m + 1 := ⟨fuel2 - 1, by omega⟩
      rw [scan_loop, scan_loop]
      simp only [hp, if_true]
      cases hstep : scan_step unlock input_buffer s with
      | none => rfl
      | some r =>
        obtain ⟨h3, h4⟩ := scan_step_advance unlock input_buffer s r.1 r.2 hp hstep
        simp only
        rw [ih m r.1 (by omega) (by omega)]
    · rw [scan_loop_done unlock input_buffer _ s (by omega),
        scan_loop_done unlock input_buffer _ s (by omega)]

/-! ## Mouse reports that arrive in two reads -/

theorem mouse_scan_body (length : Nat) (body rest : List Nat) (i : Nat)
    (hbody : ∀ c ∈ body, isdigit c = true ∨ c = 59) (hlen : i + body.length ≤ length) :
    mouse_scan length (body ++ rest) i = mouse_scan length rest (i + body.length) := by
  induction body generalizing i with
  | nil => rfl
  | cons c body ih =>
    have hc : isdigit c = true ∨ c = 59 := hbody c (List.mem_cons_self _ _)
    have hb : ∀ d ∈ body, isdigit d = true ∨ d = 59 :=
      fun d hd => hbody d (List.mem_cons_of_mem _ hd)
    simp only [List.length_cons] at hlen
    have hi : i < length := by omega
    rw [List.cons_append, mouse_scan]
    simp only [hi, hc, and_self, if_true]
    rw [ih (i + 1) hb (by omega)]
    simp only [List.length_cons]
    congr 1
    omega

theorem mouse_scan_stop (length : Nat) (t : Nat) (rest : List Nat) (i : Nat)
    (ht : ¬ (isdigit t = true ∨ t = 59)) :
    mouse_scan length (t :: rest) i = i := by
  rw [mouse_scan]
  simp only [ht, and_false, if_false]

/-- The probe on `ESC [ <`, a body of digits and `;`, and a terminator `M` or `m`,
with at least that many bytes in the window: the length of the report. -/
theorem get_mouse_event_length_complete (body rest : List Nat) (t length : Nat)
    (hbody : ∀ c ∈ body, isdigit c = true ∨ c = 59) (ht : t = 77 ∨ t = 109)
    (hlen : body.length + 4 ≤ length) :
    get_mouse_event_length (27 :: 91 :: 60 :: (body ++ t :: rest)) length
      = body.length + 4 := by
  have htd : ¬ (isdigit t = true ∨ t = 59) := by
    rcases ht with h | h <;> subst h <;> decide
  have hscan : mouse_scan length (body ++ t :: rest) 3 = 3 + body.length := by
    rw [mouse_scan_body length body (t :: rest) 3 hbody (by omega),
      mouse_scan_stop length t rest _ htd]
  have hget : (27 :: 91 :: 60 :: (body ++ t :: rest)).getD (3 + body.length) 0 = t := by
    have e : 3 + body.length = body.length + 3 := by omega
    rw [e]
    simp only [List.getD_eq_getElem?_getD, List.getElem?_cons_succ]
    rw [List.getElem?_append_right (Nat.le_refl _)]
    simp
  unfold get_mouse_event_length
  simp only [List.drop_succ_cons, List.drop_zero, hscan, hget]
  have hlt : 3 + body.length < length := by omega
  simp only [hlt, ht, and_self, if_true]
  omega

/-- The probe on `ESC [ <` followed by digits and `;` only: `0`, the report is not
complete yet. -/
theorem get_mouse_event_length_pending (body : List Nat)
    (hbody : ∀ c ∈ body, isdigit c = true ∨ c = 59) :
    get_mouse_event_length (27 :: 91 :: 60 :: body) (27 :: 91 :: 60 :: body).length = 0 := by
  have hscan : mouse_scan (body.length + 3) body 3 = 3 + body.length := by
    have h := mouse_scan_body (body.length + 3) body [] 3 hbody (by omega)
    rw [List.append_nil] at h
    rw [h]
    rfl
  unfold get_mouse_event_length
  simp only [List.drop_succ_cons, List.drop_zero, List.length_cons, hscan]
  have hlt : ¬ 3 + body.length < body.length + 1 + 1 + 1 := by omega
  simp only [hlt, false_and, if_false]

theorem is_mouse_event_introducer (rest : List Nat) (length : Nat) (h : 3 ≤ length) :
    is_mouse_event (27 :: 91 :: 60 :: rest) length = true := by
  simp [is_mouse_event, h]

/-- The body `button ; x ; y` of a well-formed report holds digits and `;` only. -/
theorem sgr_body (button x y : List Nat) (hb : is_number button) (hx : is_number x)
    (hy : is_number y) :
    ∀ c ∈ button ++ 59 :: (x ++ 59 :: y), isdigit c = true ∨ c = 59 := by
  intro c hc
  simp only [List.mem_append, List.mem_cons] at hc
  rcases hc with h | h | h | h | h
  · exact Or.inl (hb.2 c h)
  · exact Or.inr h
  · exact Or.inl (hx.2 c h)
  · exact Or.inr h
  · exact Or.inl (hy.2 c h)

theorem sgr_sequence_eq (button x y : List Nat) (t : Nat) :
    sgr_sequence button x y t
      = 27 :: 91 :: 60 :: ((button ++ 59 :: (x ++ 59 :: y)) ++ [t]) := by
  simp [sgr_sequence]

/-- A pass that ends with `ESC [ <` and digits and `;` only in the buffer: nothing is
consumed and no callback is invoked. -/
theorem process_input_iter_pending (st : LoopState) (chunk body : List Nat)
    (hne : chunk ≠ []) (hbuf : st.input_buffer ++ chunk = 27 :: 91 :: 60 :: body)
    (hbody : ∀ c ∈ body, isdigit c = true ∨ c = 59)
    (hfit : st.input_buffer.length + chunk.length < MAX_BUFFER_SIZE) :
    process_input_iter st chunk
      = ({ input_buffer := 27 :: 91 :: 60 :: body
           event := st.event
           key_states := List.replicate MAX_KEYS false
           key_pressed_last_frame := st.key_states
           unlock := st.unlock }, []) := by
  have h0 : ¬ chunk.length = 0 := fun h => hne (List.length_eq_zero.mp h)
  have hitem : scan_item st.unlock (27 :: 91 :: 60 :: body) (27 :: 91 :: 60 :: body).length
      st.event st.key_states = none := by
    unfold scan_item
    rw [is_mouse_event_introducer body _ (by simp), get_mouse_event_length_pending body hbody]
    simp
  have hloop := scan_loop_wait st.unlock [] (27 :: 91 :: 60 :: body)
    (27 :: 91 :: 60 :: body).length st.event st.key_states hitem
  simp only [List.nil_append, List.length_nil] at hloop
  unfold process_input_iter
  simp only [h0, if_false, hfit, if_true, hbuf, hloop, List.drop_zero]

/-- A pass that ends with exactly one complete report in the buffer: the report is
decoded once, the click callbacks are invoked as the decoded event says, and the
buffer is left empty. -/
theorem process_input_iter_report (st : LoopState) (chunk body : List Nat) (t : Nat)
    (hne : chunk ≠ []) (hbuf : st.input_buffer ++ chunk = 27 :: 91 :: 60 :: (body ++ [t]))
    (hbody : ∀ c ∈ body, isdigit c = true ∨ c = 59) (ht : t = 77 ∨ t = 109)
    (hfit : st.input_buffer.length + chunk.length < MAX_BUFFER_SIZE) :
    process_input_iter st chunk
      = ({ input_buffer := []
           event := parse_sgr_mouse_event (27 :: 91 :: 60 :: (body ++ [t])) st.event
           key_states := List.replicate MAX_KEYS false
           key_pressed_last_frame := st.key_states
           unlock := st.unlock },
          mouse_callbacks st.unlock
            (parse_sgr_mouse_event (27 :: 91 :: 60 :: (body ++ [t])) st.event)) := by
  have h0 : ¬ chunk.length = 0 := fun h => hne (List.length_eq_zero.mp h)
  have hlen : (27 :: 91 :: 60 :: (body ++ [t])).length = body.length + 4 := by simp
  have hitem : scan_item st.unlock (27 :: 91 :: 60 :: (body ++ [t]))
      (27 :: 91 :: 60 :: (body ++ [t])).length st.event st.key_states
      = some (body.length + 4,
          parse_sgr_mouse_event (27 :: 91 :: 60 :: (body ++ [t])) st.event, st.key_states,
          mouse_callbacks st.unlock
            (parse_sgr_mouse_event (27 :: 91 :: 60 :: (body ++ [t])) st.event)) := by
    unfold scan_item
    rw [is_mouse_event_introducer _ _ (by simp),
      get_mouse_event_length_complete body [] t _ hbody ht (by simp)]
    simp
  have hloop := scan_loop_advance st.unlock [] (27 :: 91 :: 60 :: (body ++ [t]))
    (body.length + 3) st.event st.key_states _ _ _ _ (by simp) hitem
  rw [scan_loop_done st.unlock _ (body.length + 3) _ (by simp)] at hloop
  simp only [List.nil_append, List.length_nil, List.append_nil, Nat.zero_add] at hloop
  have hfuel : (27 :: 91 :: 60 :: (body ++ [t])).length = body.length + 3 + 1 := by simp
  unfold process_input_iter
  simp only [h0, if_false, hfit, if_true, hbuf, hfuel, hloop]
  have hdrop : List.drop (body.length + 4) (27 :: 91 :: 60 :: (body ++ [t])) = [] := by
    apply List.drop_eq_nil_of_le
    simp
  rw [hdrop]

/-- A well-formed report split after its introducer `ESC [ <` and read into an empty
buffer by two consecutive reads is decoded as if it had come in one piece. The first
pass invokes no callback, keeps the chunk and leaves the event alone; the second
decodes the report once, so that the two passes invoke exactly the callbacks of one
pass over the whole report, all of them click callbacks, and leave the buffer
empty. -/
theorem split_after_introducer (st : LoopState) (button x y c1 c2 : List Nat) (t : Nat)
    (hempty : st.input_buffer = []) (hb : is_number button) (hx : is_number x)
    (hy : is_number y) (ht : t = 77 ∨ t = 109)
    (hsplit : c1 ++ c2 = sgr_sequence button x y t) (h3 : 3 ≤ c1.length) (hc2 : c2 ≠ [])
    (hfit : (sgr_sequence button x y t).length < MAX_BUFFER_SIZE) :
    (process_input_iter st c1).2 = [] ∧
    (process_input_iter st c1).1.input_buffer = c1 ∧
    (process_input_iter st c1).1.event = st.event ∧
    (process_input_iter (process_input_iter st c1).1 c2).2
      = mouse_callbacks st.unlock
          (parse_sgr_mouse_event (sgr_sequence button x y t) st.event) ∧
    (process_input_iter st c1).2 ++ (process_input_iter (process_input_iter st c1).1 c2).2
      = (process_input_iter st (sgr_sequence button x y t)).2 ∧
    (process_input_iter (process_input_iter st c1).1 c2).1.input_buffer = [] ∧
    (process_input_iter (process_input_iter st c1).1 c2).1.event
      = parse_sgr_mouse_event (sgr_sequence button x y t) st.event ∧
    (∀ cb ∈ (process_input_iter st c1).2
        ++ (process_input_iter (process_input_iter st c1).1 c2).2,
      (∃ px py, cb = Callback.mouse_left_event px py) ∨ cb = Callback.mouse_right_event) := by
  have hbody := sgr_body button x y hb hx hy
  rw [sgr_sequence_eq] at hsplit hfit ⊢
  generalize button ++ 59 :: (x ++ 59 :: y) = body at hbody hsplit hfit
  -- the two chunks are `ESC [ <` with a part of the body, and the rest with `t`
  obtain ⟨body1, body2, hc1, hc2e, hb12⟩ : ∃ body1 body2,
      c1 = 27 :: 91 :: 60 :: body1 ∧ c2 = body2 ++ [t] ∧ body1 ++ body2 = body := by
    match c1, h3 with
    | a :: b :: c :: c1r, _ =>
      simp only [List.cons_append, List.cons.injEq] at hsplit
      obtain ⟨rfl, rfl, rfl, hrest⟩ := hsplit
      obtain ⟨c2r, u, rfl⟩ : ∃ c2r u, c2 = c2r ++ [u] :=
        ⟨c2.dropLast, c2.getLast hc2, (List.dropLast_append_getLast hc2).symm⟩
      rw [← List.append_assoc] at hrest
      obtain ⟨h1, h2⟩ := List.append_inj' hrest rfl
      simp only [List.cons.injEq, and_true] at h2
      subst h2
      exact ⟨c1r, c2r, rfl, rfl, h1⟩
  subst hc1 hc2e hb12
  have hbody1 : ∀ c ∈ body1, isdigit c = true ∨ c = 59 :=
    fun c hc => hbody c (List.mem_append_left _ hc)
  have hlen : (27 :: 91 :: 60 :: (body1 ++ body2 ++ [t])).length
      = (27 :: 91 :: 60 :: body1).length + (body2 ++ [t]).length := by
    simp only [List.length_cons, List.length_append, List.length_nil]; omega
  have hpass1 := process_input_iter_pending st (27 :: 91 :: 60 :: body1) body1 (by simp)
    (by rw [hempty]; rfl) hbody1 (by rw [hempty]; simp only [List.length_nil]; omega)
  have hwhole := process_input_iter_report st (27 :: 91 :: 60 :: (body1 ++ body2 ++ [t]))
    (body1 ++ body2) t (by simp) (by rw [hempty]; rfl) hbody ht
    (by rw [hempty]; simp only [List.length_nil]; omega)
  rw [hpass1]
  have hpass2 := process_input_iter_report
    { input_buffer := 27 :: 91 :: 60 :: body1
      event := st.event
      key_states := List.replicate MAX_KEYS false
      key_pressed_last_frame := st.key_states
      unlock := st.unlock } (body2 ++ [t]) (body1 ++ body2) t (by simp) (by simp) hbody ht
    (by simp only; omega)
  simp only at hpass2
  rw [hpass2, hwhole]
  refine ⟨rfl, rfl, rfl, rfl, rfl, rfl, rfl, ?_⟩
  intro cb hcb
  simp only [List.nil_append, mouse_callbacks] at hcb
  split at hcb
  · simp only [List.mem_append] at hcb
    rcases hcb with h | h
    · split at h
      · simp only [List.mem_singleton] at h
        exact Or.inl ⟨_, _, h⟩
      · simp at h
    · split at h
      · simp only [List.mem_singleton] at h
        exact Or.inr h
      · simp at h
  · simp at hcb

/-! ## Windows that start like a mouse report and cannot become one -/

/-- The probe answers `0` on `ESC [ <` followed by a byte that is no digit, `;`, `M`
or `m`, whatever comes after it. -/
theorem get_mouse_event_length_malformed (c : Nat) (rest : List Nat) (length : Nat)
    (hc : ¬ (isdigit c = true ∨ c = 59)) (hM : c ≠ 77) (hm : c ≠ 109) :
    get_mouse_event_length (27 :: 91 :: 60 :: c :: rest) length = 0 := by
  unfold get_mouse_event_length
  simp only [List.drop_succ_cons, List.drop_zero, mouse_scan_stop length c rest 3 hc]
  have hget : (27 :: 91 :: 60 :: c :: rest).getD 3 0 = c := rfl
  simp only [hget, hM, hm, or_self, and_false, if_false]

/-- Once the buffer starts with `ESC [ <` and such a byte, every further pass that
fits the buffer keeps all of it, appends the chunk and invokes no callback. -/
theorem malformed_report_stalls (st : LoopState) (c : Nat) (rest chunk : List Nat)
    (hbuf : st.input_buffer = 27 :: 91 :: 60 :: c :: rest)
    (hc : ¬ (isdigit c = true ∨ c = 59)) (hM : c ≠ 77) (hm : c ≠ 109) (hne : chunk ≠ [])
    (hfit : st.input_buffer.length + chunk.length < MAX_BUFFER_SIZE) :
    (process_input_iter st chunk).2 = [] ∧
    (process_input_iter st chunk).1.input_buffer = st.input_buffer ++ chunk ∧
    (process_input_iter st chunk).1.event = st.event := by
  have h0 : ¬ chunk.length = 0 := fun h => hne (List.length_eq_zero.mp h)
  have hitem : scan_item st.unlock (27 :: 91 :: 60 :: c :: (rest ++ chunk))
      (27 :: 91 :: 60 :: c :: (rest ++ chunk)).length st.event st.key_states = none := by
    rw [scan_item_eq_none_iff]
    exact ⟨is_mouse_event_introducer _ _ (by simp),
      get_mouse_event_length_malformed c _ _ hc hM hm⟩
  have hloop := scan_loop_wait st.unlock [] (27 :: 91 :: 60 :: c :: (rest ++ chunk))
    (27 :: 91 :: 60 :: c :: (rest ++ chunk)).length st.event st.key_states hitem
  simp only [List.nil_append, List.length_nil] at hloop
  have happ : st.input_buffer ++ chunk = 27 :: 91 :: 60 :: c :: (rest ++ chunk) := by
    rw [hbuf]; rfl
  unfold process_input_iter
  simp only [h0, if_false, hfit, if_true, happ, hloop, List.drop_zero, and_self]

/-! ## Overflow of the receive buffer -/

/-- The discard branch: a non-empty chunk with
`input_buffer_length + bytes_read >= MAX_BUFFER_SIZE` empties the buffer, invokes no
callback and changes nothing else. -/
theorem process_input_iter_discard (st : LoopState) (chunk : List Nat) (hne : chunk ≠ [])
    (hfull : MAX_BUFFER_SIZE ≤ st.input_buffer.length + chunk.length) :
    process_input_iter st chunk = ({ st with input_buffer := [] }, []) := by
  have h0 : ¬ chunk.length = 0 := fun h => hne (List.length_eq_zero.mp h)
  have hfit : ¬ st.input_buffer.length + chunk.length < MAX_BUFFER_SIZE := by omega
  unfold process_input_iter
  simp only [h0, if_false, hfit]

/-- The append branch: a non-empty chunk with
`input_buffer_length + bytes_read < MAX_BUFFER_SIZE` is appended, the buffer is
scanned from its start and the unprocessed bytes are kept. -/
theorem process_input_iter_append (st : LoopState) (chunk : List Nat) (hne : chunk ≠ [])
    (hfit : st.input_buffer.length + chunk.length < MAX_BUFFER_SIZE) :
    (process_input_iter st chunk).1.input_buffer
      = (st.input_buffer ++ chunk).drop
          (scan_loop st.unlock (st.input_buffer ++ chunk) (st.input_buffer ++ chunk).length
            ⟨0, st.event, st.key_states⟩).1.processed ∧
    (process_input_iter st chunk).2
      = (scan_loop st.unlock (st.input_buffer ++ chunk) (st.input_buffer ++ chunk).length
          ⟨0, st.event, st.key_states⟩).2 := by
  have h0 : ¬ chunk.length = 0 := fun h => hne (List.length_eq_zero.mp h)
  unfold process_input_iter
  simp only [h0, if_false, hfit, if_true, and_self]

/-- C6, amended at the boundary: a chunk of `n >= 1` bytes read while `L` bytes are
pending is appended, and the buffer `pending ++ chunk` is scanned from its start,
when `L + n < 1024` (at most 1023 bytes after the append); when `L + n >= 1024` the
whole buffer is discarded, no callback is invoked, nothing else changes, and the next
read is processed exactly as from an empty buffer. -/
theorem append_or_discard (st : LoopState) (chunk next : List Nat) (hne : chunk ≠ []) :
    (st.input_buffer.length + chunk.length < MAX_BUFFER_SIZE →
      (process_input_iter st chunk).1.input_buffer
        = (st.input_buffer ++ chunk).drop
            (scan_loop st.unlock (st.input_buffer ++ chunk)
              (st.input_buffer ++ chunk).length
              ⟨0, st.event, st.key_states⟩).1.processed ∧
      (process_input_iter st chunk).2
        = (scan_loop st.unlock (st.input_buffer ++ chunk) (st.input_buffer ++ chunk).length
            ⟨0, st.event, st.key_states⟩).2 ∧
      process_input_iter st chunk
        = process_input_iter { st with input_buffer := [] } (st.input_buffer ++ chunk)) ∧
    (MAX_BUFFER_SIZE ≤ st.input_buffer.length + chunk.length →
      (process_input_iter st chunk).1.input_buffer = [] ∧
      (process_input_iter st chunk).2 = [] ∧
      process_input_iter st chunk = ({ st with input_buffer := [] }, []) ∧
      process_input_iter (process_input_iter st chunk).1 next
        = process_input_iter { st with input_buffer := [] } next) := by
  have h0 : ¬ chunk.length = 0 := fun h => hne (List.length_eq_zero.mp h)
  constructor
  · intro hfit
    obtain ⟨h1, h2⟩ := process_input_iter_append st chunk hne hfit
    refine ⟨h1, h2, ?_⟩
    have h0a : ¬ (st.input_buffer ++ chunk).length = 0 := by
      simp only [List.length_append]; omega
    have hfita : (st.input_buffer ++ chunk).length < MAX_BUFFER_SIZE := by
      simp only [List.length_append]; exact hfit
    unfold process_input_iter
    simp only [h0, if_false, hfit, if_true, h0a, List.length_nil, Nat.zero_add, hfita,
      List.nil_append]
  · intro hfull
    have h := process_input_iter_discard st chunk hne hfull
    rw [h]
    exact ⟨rfl, rfl, rfl, rfl⟩

/-- A chunk of three plain keys read into the initial state is appended and scanned
to the end. -/
theorem append_or_discard_witness :
    (process_input_iter initial_state [97, 98, 99]).2
      = (scan_loop true ([] ++ [97, 98, 99]) 3
          ⟨0, initial_state.event, initial_state.key_states⟩).2 :=
  ((append_or_discard initial_state [97, 98, 99] [] (by decide)).1 (by decide)).2.1

set_option maxRecDepth 100000 in
/-- C6 as stated fails when the chunk fills the buffer exactly. The report `ESC[<`,
`0` 1016 times, `;1;1M` has 1024 bytes and is read in eight chunks of 128 bytes. After
seven reads 896 bytes are pending; with the eighth chunk `L + n = 1024` does not
exceed the capacity of 1024 bytes, yet the pass discards the buffer and invokes no
callback, where a scan of the appended buffer invokes the left-click callback at
`(0, 1)`. -/
theorem exact_fit_is_discarded :
    (run initial_state
      (Action.read ([27, 91, 60] ++ List.replicate 125 48) ::
        List.replicate 6 (Action.read (List.replicate 128 48)))).1.input_buffer.length
      = 896 ∧
    (List.replicate 123 48 ++ [59, 49, 59, 49, 77]).length = 128 ∧
    ¬ (896 + 128 > MAX_BUFFER_SIZE) ∧
    (process_input_iter
      (run initial_state
        (Action.read ([27, 91, 60] ++ List.replicate 125 48) ::
          List.replicate 6 (Action.read (List.replicate 128 48)))).1
      (List.replicate 123 48 ++ [59, 49, 59, 49, 77])).2 = [] ∧
    (process_input_iter
      (run initial_state
        (Action.read ([27, 91, 60] ++ List.replicate 125 48) ::
          List.replicate 6 (Action.read (List.replicate 128 48)))).1
      (List.replicate 123 48 ++ [59, 49, 59, 49, 77])).1.input_buffer = [] ∧
    (scan_loop true
      ((run initial_state
        (Action.read ([27, 91, 60] ++ List.replicate 125 48) ::
          List.replicate 6 (Action.read (List.replicate 128 48)))).1.input_buffer
        ++ (List.replicate 123 48 ++ [59, 49, 59, 49, 77]))
      1024 ⟨0, initial_state.event, initial_state.key_states⟩).2
      = [Callback.mouse_left_event 0 1] := by
  decide

/-! ## Inputs on which the code departs from its specification -/

set_option maxRecDepth 100000 in
/-- C1, failing input: the report `ESC[<0;10;5M` delivered as `ESC` and then
`[<0;10;5M`. The first pass drops the lone `ESC`; the second pass invokes the
printable-char callback on each of the nine remaining bytes and decodes no mouse
event, where one pass over the whole report invokes the left-click callback once, at
`(10, 5)`. The same happens for the split after `ESC [`. -/
theorem split_inside_introducer :
    process_input_iter initial_state [27] = (initial_state, []) ∧
    (process_input_iter (process_input_iter initial_state [27]).1
        [91, 60, 48, 59, 49, 48, 59, 53, 77]).2
      = [Callback.printable_char 91, Callback.printable_char 60, Callback.printable_char 48,
          Callback.printable_char 59, Callback.printable_char 49, Callback.printable_char 48,
          Callback.printable_char 59, Callback.printable_char 53,
          Callback.printable_char 77] ∧
    (process_input_iter (process_input_iter initial_state [27]).1
        [91, 60, 48, 59, 49, 48, 59, 53, 77]).1.event = initial_state.event ∧
    (process_input_iter initial_state [27, 91, 60, 48, 59, 49, 48, 59, 53, 77]).2
      = [Callback.mouse_left_event 10 5] ∧
    (run initial_state [Action.read [27, 91], Action.read [60, 48, 59, 49, 48, 59, 53, 77]]).2
      = [Callback.printable_char 91, Callback.printable_char 60, Callback.printable_char 48,
          Callback.printable_char 59, Callback.printable_char 49, Callback.printable_char 48,
          Callback.printable_char 59, Callback.printable_char 53,
          Callback.printable_char 77] := by
  decide

set_option maxRecDepth 100000 in
/-- C5, failing input: the window `ESC [ < a`. The byte after the introducer is no
digit, `;`, `M` or `m`, so the window can never become a mouse report, yet the scan
leaves the loop on it as on an incomplete report: nothing is consumed, the four bytes
stay in the buffer, and the key `a` read next is neither dispatched nor recorded. -/
theorem malformed_mouse_report_is_retained :
    get_mouse_event_length [27, 91, 60, 97] 4 = 0 ∧
    scan_item true [27, 91, 60, 97] 4 initial_state.event initial_state.key_states = none ∧
    (process_input_iter initial_state [27, 91, 60, 97]).2 = [] ∧
    (process_input_iter initial_state [27, 91, 60, 97]).1.input_buffer = [27, 91, 60, 97] ∧
    (run initial_state [Action.read [27, 91, 60, 97], Action.read [97]]).2 = [] ∧
    (run initial_state [Action.read [27, 91, 60, 97], Action.read [97]]).1.input_buffer
      = [27, 91, 60, 97, 97] ∧
    get_key_state (run initial_state [Action.read [27, 91, 60, 97], Action.read [97]]).1 97
      = false := by
  decide

/-! ## The classifier predicates -/

theorem getD_eq_head (buffer : List Nat) (c : Nat) (hc : c ≠ 0) (h : buffer.getD 0 0 = c) :
    ∃ rest, buffer = c :: rest := by
  cases buffer with
  | nil => exact absurd h.symm hc
  | cons d rest =>
    simp only [List.getD_cons_zero] at h
    exact ⟨rest, by rw [h]⟩

/-- C12: on every window `(buffer, length)`, `is_mouse_event` is true iff
`length >= 3` and the first three bytes are `ESC`, `[`, `<`; so it is false on every
window shorter than 3 bytes and on every buffer that does not begin with
`ESC [ <`. -/
theorem is_mouse_event_iff (buffer : List Nat) (length : Nat) :
    (is_mouse_event buffer length = true ↔
      3 ≤ length ∧ buffer.getD 0 0 = 27 ∧ buffer.getD 1 0 = 91 ∧ buffer.getD 2 0 = 60) ∧
    (length < 3 → is_mouse_event buffer length = false) ∧
    ((¬ ∃ rest, buffer = 27 :: 91 :: 60 :: rest) → is_mouse_event buffer length = false) := by
  have hiff : is_mouse_event buffer length = true ↔
      3 ≤ length ∧ buffer.getD 0 0 = 27 ∧ buffer.getD 1 0 = 91 ∧ buffer.getD 2 0 = 60 := by
    simp only [is_mouse_event, Bool.and_eq_true, decide_eq_true_eq, beq_iff_eq, ge_iff_le,
      and_assoc]
  refine ⟨hiff, fun hlt => ?_, fun hno => ?_⟩
  · cases h : is_mouse_event buffer length with
    | false => rfl
    | true => exact absurd (hiff.mp h).1 (by omega)
  · cases h : is_mouse_event buffer length with
    | false => rfl
    | true =>
      obtain ⟨-, h0, h1, h2⟩ := hiff.mp h
      obtain ⟨r0, rfl⟩ := getD_eq_head buffer 27 (by decide) h0
      simp only [List.getD_cons_succ] at h1 h2
      obtain ⟨r1, rfl⟩ := getD_eq_head r0 91 (by decide) h1
      simp only [List.getD_cons_succ] at h2
      obtain ⟨r2, rfl⟩ := getD_eq_head r1 60 (by decide) h2
      exact absurd ⟨r2, rfl⟩ hno

/-- The windows `ESC [ <` of length 3, `ESC [` of length 2, and `a [ <`. -/
theorem is_mouse_event_iff_witness :
    is_mouse_event [27, 91, 60] 3 = true ∧ is_mouse_event [27, 91] 2 = false ∧
    is_mouse_event [97, 91, 60] 3 = false :=
  ⟨(is_mouse_event_iff [27, 91, 60] 3).1.mpr (by decide),
   (is_mouse_event_iff [27, 91] 2).2.1 (by decide),
   (is_mouse_event_iff [97, 91, 60] 3).2.2 (by rintro ⟨rest, h⟩; simp at h)⟩

/-- C13: on every window `(buffer, length)`, `is_arrow_key` is true iff `length >= 3`,
the first two bytes are `ESC` and `[`, and the third is one of `A`, `B`, `C`, `D`;
`is_arrow_key` and `is_mouse_event` are never both true on the same window. -/
theorem is_arrow_key_iff (buffer : List Nat) (length : Nat) :
    (is_arrow_key buffer length = true ↔
      3 ≤ length ∧ buffer.getD 0 0 = 27 ∧ buffer.getD 1 0 = 91 ∧
        (buffer.getD 2 0 = 65 ∨ buffer.getD 2 0 = 66 ∨ buffer.getD 2 0 = 67 ∨
          buffer.getD 2 0 = 68)) ∧
    ¬ (is_arrow_key buffer length = true ∧ is_mouse_event buffer length = true) := by
  have hiff : is_arrow_key buffer length = true ↔
      3 ≤ length ∧ buffer.getD 0 0 = 27 ∧ buffer.getD 1 0 = 91 ∧
        (buffer.getD 2 0 = 65 ∨ buffer.getD 2 0 = 66 ∨ buffer.getD 2 0 = 67 ∨
          buffer.getD 2 0 = 68) := by
    simp only [is_arrow_key, Bool.and_eq_true, decide_eq_true_eq, beq_iff_eq, ge_iff_le,
      Bool.or_eq_true, and_assoc, or_assoc]
  refine ⟨hiff, ?_⟩
  rintro ⟨ha, hm⟩
  obtain ⟨-, -, -, h2⟩ := hiff.mp ha
  have h60 : buffer.getD 2 0 = 60 := by
    simp only [is_mouse_event, Bool.and_eq_true, beq_iff_eq] at hm
    exact hm.2
  omega

/-! ## `release_key` -/

/-- C14: for every state of the key tables and every byte `k`, `release_key k` makes
`get_key_state k` false, leaves `get_key_state j` as it was for every `j != k`, and
changes neither the current-pass table `key_states` nor the input gate (nor the
receive buffer or the mouse event). -/
theorem release_key_frame (st : LoopState) (k : Nat) :
    get_key_state (release_key st k) k = false ∧
    (∀ j, j ≠ k → get_key_state (release_key st k) j = get_key_state st j) ∧
    (release_key st k).key_states = st.key_states ∧
    (release_key st k).unlock = st.unlock ∧
    (release_key st k).input_buffer = st.input_buffer ∧
    (release_key st k).event = st.event := by
  refine ⟨?_, fun j hj => ?_, rfl, rfl, rfl, rfl⟩
  · simp only [get_key_state, release_key, List.getD_eq_getElem?_getD, List.getElem?_set,
      if_true]
    split <;> rfl
  · have hkj : ¬ k = j := fun h => hj h.symm
    simp only [get_key_state, release_key, List.getD_eq_getElem?_getD, List.getElem?_set,
      hkj, if_false]

/-- The key `a` released after a pass that read `a` and `b`: `a` is reported up, `b`
still down. -/
theorem release_key_frame_witness :
    get_key_state (release_key (process_input_iter initial_state [97, 98]).1 97) 97 = false ∧
    get_key_state (release_key (process_input_iter initial_state [97, 98]).1 97) 98
      = get_key_state (process_input_iter initial_state [97, 98]).1 98 :=
  ⟨(release_key_frame (process_input_iter initial_state [97, 98]).1 97).1,
   (release_key_frame (process_input_iter initial_state [97, 98]).1 97).2.1 98 (by decide)⟩

/-- The window `ESC [ A` of length 3. -/
theorem is_arrow_key_iff_witness : is_arrow_key [27, 91, 65] 3 = true :=
  (is_arrow_key_iff [27, 91, 65] 3).1.mpr (by decide)

/-! ## The length probe -/

theorem drop_eq_cons_getD (buffer : List Nat) (k c : Nat) (rest : List Nat)
    (h : buffer.drop k = c :: rest) :
    buffer.getD k 0 = c ∧ buffer.drop (k + 1) = rest := by
  constructor
  · have h0 : (buffer.drop k)[0]? = some c := by rw [h]; simp
    rw [List.getElem?_drop] at h0
    simp only [Nat.add_zero] at h0
    simp only [List.getD_eq_getElem?_getD, h0, Option.getD_some]
  · have ht : (buffer.drop k).tail = rest := by rw [h]; rfl
    rw [List.tail_drop] at ht
    exact ht

theorem drop_eq_nil_getD (buffer : List Nat) (k : Nat) (h : buffer.drop k = []) :
    buffer.getD k 0 = 0 := by
  have hlen : buffer.length ≤ k := List.drop_eq_nil_iff.mp h
  simp only [List.getD_eq_getElem?_getD, List.getElem?_eq_none hlen, Option.getD_none]

/-- The loop of `get_mouse_event_length` started at offset `k` stops at the first
offset that is not below `length` or whose byte is no digit and no `;`. -/
theorem mouse_scan_first_stop (length : Nat) (buffer bytes : List Nat) (k : Nat)
    (hbytes : buffer.drop k = bytes) :
    k ≤ mouse_scan length bytes k ∧
    (∀ j, k ≤ j → j < mouse_scan length bytes k →
      j < length ∧ is_body_byte (buffer.getD j 0)) ∧
    (mouse_scan length bytes k < length →
      ¬ is_body_byte (buffer.getD (mouse_scan length bytes k) 0)) := by
  induction bytes generalizing k with
  | nil =>
    simp only [mouse_scan]
    refine ⟨Nat.le_refl k, fun j h1 h2 => absurd h2 (by omega), fun _ => ?_⟩
    rw [drop_eq_nil_getD buffer k hbytes]
    decide
  | cons c rest ih =>
    obtain ⟨hc, hrest⟩ := drop_eq_cons_getD buffer k c rest hbytes
    rw [mouse_scan]
    by_cases hcond : k < length ∧ (isdigit c = true ∨ c = 59)
    · simp only [hcond, and_self, if_true]
      obtain ⟨i1, i2, i3⟩ := ih (k + 1) hrest
      refine ⟨by omega, fun j h1 h2 => ?_, i3⟩
      by_cases hjk : j = k
      · subst hjk
        rw [hc]
        exact ⟨hcond.1, hcond.2⟩
      · exact i2 j (by omega) h2
    · simp only [hcond, if_false]
      refine ⟨Nat.le_refl k, fun j h1 h2 => absurd h2 (by omega), fun hlt => ?_⟩
      rw [hc]
      intro hbody
      exact hcond ⟨hlt, hbody⟩

/-- C11: on every window `(buffer, length)`, let `i` be the first offset from 3 on
whose byte is no decimal digit and no `;`. If `i < length` and that byte is `M` or
`m`, `get_mouse_event_length` returns `i + 1`; if `i < length` and the byte is
anything else it returns 0; if there is no such offset below `length` (all bytes
from 3 on are digits or `;`), and in particular if `length <= 3`, it returns 0. -/
theorem get_mouse_event_length_spec (buffer : List Nat) (length : Nat) :
    (∀ i, 3 ≤ i → i < length →
      (∀ j, 3 ≤ j → j < i → is_body_byte (buffer.getD j 0)) →
      ¬ is_body_byte (buffer.getD i 0) →
      ((buffer.getD i 0 = 77 ∨ buffer.getD i 0 = 109) →
        get_mouse_event_length buffer length = i + 1) ∧
      (¬ (buffer.getD i 0 = 77 ∨ buffer.getD i 0 = 109) →
        get_mouse_event_length buffer length = 0)) ∧
    ((∀ j, 3 ≤ j → j < length → is_body_byte (buffer.getD j 0)) →
      get_mouse_event_length buffer length = 0) ∧
    (length ≤ 3 → get_mouse_event_length buffer length = 0) := by
  obtain ⟨h3, hrun, hstop⟩ := mouse_scan_first_stop length buffer (buffer.drop 3) 3 rfl
  have hall : (∀ j, 3 ≤ j → j < length → is_body_byte (buffer.getD j 0)) →
      get_mouse_event_length buffer length = 0 := by
    intro hbody
    have hge : ¬ mouse_scan length (buffer.drop 3) 3 < length := by
      intro hlt
      exact hstop hlt (hbody _ h3 hlt)
    unfold get_mouse_event_length
    simp only [hge, false_and, if_false]
  refine ⟨fun i hi3 hilt hbefore hnot => ?_, hall, fun hle => ?_⟩
  · have hri : mouse_scan length (buffer.drop 3) 3 = i := by
      rcases Nat.lt_trichotomy (mouse_scan length (buffer.drop 3) 3) i with h | h | h
      · exact absurd (hbefore _ h3 h) (hstop (by omega))
      · exact h
      · exact absurd (hrun i hi3 h).2 hnot
    unfold get_mouse_event_length
    simp only [hri, hilt, true_and]
    constructor
    · intro hM
      simp only [hM, if_true]
    · intro hM
      simp only [hM, if_false]
  · exact hall (fun j hj3 hjl => absurd hjl (by omega))

/-- The window `ESC[<0;5M` followed by `x`, of length 9: the first byte from offset 3
on that is no digit and no `;` is the `M` at offset 6, and the probe returns 7. -/
theorem get_mouse_event_length_spec_witness :
    get_mouse_event_length [27, 91, 60, 48, 59, 53, 77, 120] 8 = 6 + 1 :=
  ((get_mouse_event_length_spec [27, 91, 60, 48, 59, 53, 77, 120] 8).1 6 (by decide)
    (by decide)
    (by intro j h3 h6; interval_cases j <;> decide)
    (by decide)).1 (by decide)

/-! ## `parse_sgr_mouse_event` on the other buttons -/

/-- The decode when `sscanf` does not return 4: only the click flags are reset. -/
theorem parse_of_sscanf_none (ev : MouseEvent) (buffer : List Nat)
    (h : sscanf_sgr buffer = none) :
    parse_sgr_mouse_event buffer ev = { ev with left_click := 0, right_click := 0 } := by
  unfold parse_sgr_mouse_event
  rw [h]

/-- The decode when the stored button is at least 64, or has low bits 1 or 3, or the
fourth conversion read neither `M` nor `m`: only the click flags are reset. -/
theorem parse_of_sscanf_ignored (ev : MouseEvent) (buffer : List Nat) (button x y : Int)
    (event_type : Nat) (h : sscanf_sgr buffer = some (button, x, y, event_type))
    (hign : button ≥ 64 ∨ Int.land button 3 = 1 ∨ Int.land button 3 = 3 ∨
      (event_type ≠ 77 ∧ event_type ≠ 109)) :
    parse_sgr_mouse_event buffer ev = { ev with left_click := 0, right_click := 0 } := by
  unfold parse_sgr_mouse_event
  rw [h]
  simp only
  by_cases h64 : button ≥ 64
  · simp only [h64, if_true]
  · simp only [h64, if_false]
    rcases hign with h1 | h1 | h1 | h1
    · exact absurd h1 h64
    · simp only [h1, one_ne_zero, if_false, OfNat.one_ne_ofNat]
    · have e0 : ¬ ((3 : Int) = 0) := by decide
      have e2 : ¬ ((3 : Int) = 2) := by decide
      simp only [h1, e0, e2, if_false]
    · simp only [h1.1, h1.2, false_and, if_false, ite_self]

/-- The decode of a report whose stored button is below 64 with low bits 2. -/
theorem parse_of_sscanf_right (ev : MouseEvent) (buffer : List Nat) (button x y : Int)
    (event_type : Nat) (h : sscanf_sgr buffer = some (button, x, y, event_type))
    (h64 : button < 64) (h2 : Int.land button 3 = 2) :
    parse_sgr_mouse_event buffer ev
      = if event_type = 77 ∧ ev.right_just_pressed = false then
          { ev with left_click := 0, right_click := 1, right_just_pressed := true }
        else if event_type = 109 then
          { ev with left_click := 0, right_click := 0, right_just_pressed := false }
        else { ev with left_click := 0, right_click := 0 } := by
  have hn64 : ¬ button ≥ 64 := by omega
  have e0 : ¬ ((2 : Int) = 0) := by decide
  unfold parse_sgr_mouse_event
  rw [h]
  simp only [hn64, if_false, h2, e0, if_true]

/-- The decode of a report whose stored button is below 64 with low bits 0. -/
theorem parse_of_sscanf_left (ev : MouseEvent) (buffer : List Nat) (button x y : Int)
    (event_type : Nat) (h : sscanf_sgr buffer = some (button, x, y, event_type))
    (h64 : button < 64) (h0 : Int.land button 3 = 0) :
    parse_sgr_mouse_event buffer ev
      = if event_type = 77 ∧ ev.left_just_pressed = false then
          { ev with
            left_click := 1
            right_click := 0
            left_just_pressed := true
            target_x := (Int.tdiv x 2) * 2
            target_y := y }
        else if event_type = 109 then
          { ev with left_click := 0, right_click := 0, left_just_pressed := false }
        else { ev with left_click := 0, right_click := 0 } := by
  have hn64 : ¬ button ≥ 64 := by omega
  unfold parse_sgr_mouse_event
  rw [h]
  simp only [hn64, if_false, h0, if_true]

/-- Every call of `parse_sgr_mouse_event` is of one of five kinds: it only resets the
click flags, or it decodes a left press on a released button, a left release, a right
press on a released button, or a right release. -/
theorem parse_cases (ev : MouseEvent) (buffer : List Nat) :
    parse_sgr_mouse_event buffer ev = { ev with left_click := 0, right_click := 0 } ∨
    (∃ button x y, sscanf_sgr buffer = some (button, x, y, 77) ∧ button < 64 ∧
      Int.land button 3 = 0 ∧ ev.left_just_pressed = false ∧
      parse_sgr_mouse_event buffer ev
        = { ev with
            left_click := 1
            right_click := 0
            left_just_pressed := true
            target_x := (Int.tdiv x 2) * 2
            target_y := y }) ∨
    (∃ button x y, sscanf_sgr buffer = some (button, x, y, 109) ∧ button < 64 ∧
      Int.land button 3 = 0 ∧
      parse_sgr_mouse_event buffer ev
        = { ev with left_click := 0, right_click := 0, left_just_pressed := false }) ∨
    (∃ button x y, sscanf_sgr buffer = some (button, x, y, 77) ∧ button < 64 ∧
      Int.land button 3 = 2 ∧ ev.right_just_pressed = false ∧
      parse_sgr_mouse_event buffer ev
        = { ev with left_click := 0, right_click := 1, right_just_pressed := true }) ∨
    (∃ button x y, sscanf_sgr buffer = some (button, x, y, 109) ∧ button < 64 ∧
      Int.land button 3 = 2 ∧
      parse_sgr_mouse_event buffer ev
        = { ev with left_click := 0, right_click := 0, right_just_pressed := false }) := by
  cases hscan : sscanf_sgr buffer with
  | none => exact Or.inl (parse_of_sscanf_none ev buffer hscan)
  | some r =>
    obtain ⟨button, x, y, event_type⟩ := r
    by_cases h64 : button ≥ 64
    · exact Or.inl (parse_of_sscanf_ignored ev buffer button x y event_type hscan (Or.inl h64))
    · have hlt : button < 64 := by omega
      by_cases h0 : Int.land button 3 = 0
      · have hp := parse_of_sscanf_left ev buffer button x y event_type hscan hlt h0
        by_cases hM : event_type = 77 ∧ ev.left_just_pressed = false
        · right; left
          obtain ⟨hM1, hM2⟩ := hM
          subst hM1
          refine ⟨button, x, y, rfl, hlt, h0, hM2, ?_⟩
          rw [hp]; simp only [hM2, and_self, if_true]
        · by_cases hm : event_type = 109
          · right; right; left
            subst hm
            refine ⟨button, x, y, rfl, hlt, h0, ?_⟩
            rw [hp]; simp only [hM, if_false, if_true]
          · left
            rw [hp]; simp only [hM, hm, if_false]
      · by_cases h2 : Int.land button 3 = 2
        · have hp := parse_of_sscanf_right ev buffer button x y event_type hscan hlt h2
          by_cases hM : event_type = 77 ∧ ev.right_just_pressed = false
          · right; right; right; left
            obtain ⟨hM1, hM2⟩ := hM
            subst hM1
            refine ⟨button, x, y, rfl, hlt, h2, hM2, ?_⟩
            rw [hp]; simp only [hM2, and_self, if_true]
          · by_cases hm : event_type = 109
            · right; right; right; right
              subst hm
              refine ⟨button, x, y, rfl, hlt, h2, ?_⟩
              rw [hp]; simp only [hM, if_false, if_true]
            · left
              rw [hp]; simp only [hM, hm, if_false]
        · left
          unfold parse_sgr_mouse_event
          rw [hscan]
          simp only [h64, if_false, h0, h2]

theorem ldiff_three (m : Nat) : Nat.ldiff 3 m = Nat.ldiff 3 (m % 4) := by
  apply Nat.eq_of_testBit_eq
  intro i
  have h4 : (4 : Nat) = 2 ^ 2 := rfl
  rw [Nat.testBit_ldiff, Nat.testBit_ldiff, h4, Nat.testBit_mod_two_pow]
  by_cases hi : i < 2
  · simp [hi]
  · have h3 : Nat.testBit 3 i = false := by
      apply Nat.testBit_lt_two_pow
      calc 3 < 2 ^ 2 := by decide
        _ ≤ 2 ^ i := Nat.pow_le_pow_right (by decide) (by omega)
    simp [h3]

/-- On a two's complement `int`, `button & 0x03` is the remainder of `button` modulo
4, also for a negative `button`. -/
theorem land_three (z : Int) : Int.land z 3 = z % 4 := by
  cases z with
  | ofNat n =>
    have h : Int.land (Int.ofNat n) 3 = ((n &&& 3 : Nat) : Int) := rfl
    have hmod : n &&& 3 = n % 4 := Nat.and_pow_two_sub_one_eq_mod n 2
    rw [h, hmod]
    simp
  | negSucc m =>
    have h : Int.land (Int.negSucc m) 3 = ((Nat.ldiff 3 m : Nat) : Int) := rfl
    rw [h, ldiff_three m]
    have hlt : m % 4 < 4 := Nat.mod_lt m (by decide)
    have hval : Nat.ldiff 3 (m % 4) = 3 - m % 4 := by
      generalize m % 4 = r at hlt
      interval_cases r <;> simp [Nat.ldiff, Nat.bitwise]
    rw [hval, Int.negSucc_eq]
    omega

/-- An odd number is stored by `%d` as an odd `int`, whether or not it fits. -/
theorem store_int_odd (n : Nat) (h : n % 2 = 1) : store_int (n : Int) % 2 = 1 := by
  unfold store_int
  have h0 : (0 : Int) ≤ (n : Int) := Int.natCast_nonneg n
  have hn : (n : Int) % 2 = 1 := by omega
  rcases le_total (n : Int) (2 ^ 63 - 1) with hle | hle
  · have hmin : min (2 ^ 63 - 1 : Int) (n : Int) = (n : Int) := min_eq_right hle
    have hmax : max (-(2 ^ 63) : Int) (n : Int) = (n : Int) := by
      apply max_eq_right; norm_num; omega
    simp only [hmin, hmax]
    norm_num
    omega
  · have hmin : min (2 ^ 63 - 1 : Int) (n : Int) = 2 ^ 63 - 1 := min_eq_left hle
    have hmax : max (-(2 ^ 63) : Int) (2 ^ 63 - 1) = 2 ^ 63 - 1 := by
      apply max_eq_right; norm_num
    simp only [hmin, hmax]
    norm_num

/-- C16, amended where the button number has to fit an `int`: for every event state
and every well-formed report, with either terminator, whose button number is at
least 64 and at most `2147483647`, or whose button number, of any size, has
`(button & 3)` equal to 1 or 3, `parse_sgr_mouse_event` reports
`left_click = right_click = 0` and leaves `left_just_pressed`, `right_just_pressed`,
`target_x` and `target_y` unchanged. -/
theorem parse_other_button (ev : MouseEvent) (button x y rest : List Nat) (t : Nat)
    (hb : is_number button) (hx : is_number x) (hy : is_number y)
    (ht : t = 77 ∨ t = 109)
    (hign : (64 ≤ dec_value button ∧ dec_value button < 2 ^ 31) ∨
      dec_value button &&& 3 = 1 ∨ dec_value button &&& 3 = 3) :
    (parse_sgr_mouse_event (sgr_sequence button x y t ++ rest) ev).left_click = 0 ∧
    (parse_sgr_mouse_event (sgr_sequence button x y t ++ rest) ev).right_click = 0 ∧
    (parse_sgr_mouse_event (sgr_sequence button x y t ++ rest) ev).left_just_pressed
      = ev.left_just_pressed ∧
    (parse_sgr_mouse_event (sgr_sequence button x y t ++ rest) ev).right_just_pressed
      = ev.right_just_pressed ∧
    (parse_sgr_mouse_event (sgr_sequence button x y t ++ rest) ev).target_x = ev.target_x ∧
    (parse_sgr_mouse_event (sgr_sequence button x y t ++ rest) ev).target_y
      = ev.target_y := by
  have hscan := sscanf_sgr_sequence button x y t rest hb hx hy ht
  have hmod : dec_value button &&& 3 = dec_value button % 4 :=
    Nat.and_pow_two_sub_one_eq_mod (dec_value button) 2
  have hodd : dec_value button % 2 = 1 →
      Int.land (store_int (dec_value button)) 3 = 1 ∨
        Int.land (store_int (dec_value button)) 3 = 3 := by
    intro h
    have hs := store_int_odd (dec_value button) h
    rw [land_three]
    omega
  have hcond : store_int (dec_value button) ≥ 64 ∨
      Int.land (store_int (dec_value button)) 3 = 1 ∨
      Int.land (store_int (dec_value button)) 3 = 3 ∨ (t ≠ 77 ∧ t ≠ 109) := by
    rcases hign with ⟨h64, hint⟩ | h | h
    · left
      rw [store_int_of_lt _ hint]
      exact_mod_cast h64
    · right
      rcases hodd (by omega) with h1 | h1
      · exact Or.inl h1
      · exact Or.inr (Or.inl h1)
    · right
      rcases hodd (by omega) with h1 | h1
      · exact Or.inl h1
      · exact Or.inr (Or.inl h1)
  rw [parse_of_sscanf_ignored ev _ _ _ _ t hscan hcond]
  exact ⟨rfl, rfl, rfl, rfl, rfl, rfl⟩

/-- The wheel report `ESC[<64;10;5M`, the middle-button release `ESC[<1;10;5m` and the
press `ESC[<4294967297;10;5M`, whose odd button number does not fit an `int`, decoded
while the left button is held. -/
theorem parse_other_button_witness :
    (parse_sgr_mouse_event (sgr_sequence [54, 52] [49, 48] [53] 77 ++ [])
        ⟨4, 2, true, false, 1, 0⟩).left_click = 0 ∧
    (parse_sgr_mouse_event (sgr_sequence [49] [49, 48] [53] 109 ++ [])
        ⟨4, 2, true, false, 1, 0⟩).left_just_pressed = true ∧
    (parse_sgr_mouse_event
        (sgr_sequence [52, 50, 57, 52, 57, 54, 55, 50, 57, 55] [49, 48] [53] 77 ++ [])
        ⟨4, 2, true, false, 1, 0⟩).left_just_pressed = true :=
  ⟨(parse_other_button ⟨4, 2, true, false, 1, 0⟩ [54, 52] [49, 48] [53] [] 77
      (by decide) (by decide) (by decide) (by decide) (by decide)).1,
   (parse_other_button ⟨4, 2, true, false, 1, 0⟩ [49] [49, 48] [53] [] 109
      (by decide) (by decide) (by decide) (by decide) (by decide)).2.2.1,
   (parse_other_button ⟨4, 2, true, false, 1, 0⟩
      [52, 50, 57, 52, 57, 54, 55, 50, 57, 55] [49, 48] [53] [] 77
      (by decide) (by decide) (by decide) (by decide) (by decide)).2.2.1⟩

/-- C16 as stated fails when the button number does not fit an `int`: the report
`ESC[<4294967296;10;5M` is well formed and its button number is at least 64, but the
`int` that `sscanf` stores is 0, and the decode from the initial event is a left
click at `(10, 5)`. -/
theorem parse_other_button_overflow :
    is_number [52, 50, 57, 52, 57, 54, 55, 50, 57, 54] ∧ is_number [49, 48] ∧
    is_number [53] ∧
    64 ≤ dec_value [52, 50, 57, 52, 57, 54, 55, 50, 57, 54] ∧
    dec_value [52, 50, 57, 52, 57, 54, 55, 50, 57, 54] = 4294967296 ∧
    parse_sgr_mouse_event
        (sgr_sequence [52, 50, 57, 52, 57, 54, 55, 50, 57, 54] [49, 48] [53] 77)
        ⟨0, 1, false, false, 0, 0⟩
      = ⟨10, 5, true, false, 1, 0⟩ ∧
    (parse_sgr_mouse_event
        (sgr_sequence [52, 50, 57, 52, 57, 54, 55, 50, 57, 54] [49, 48] [53] 77)
        ⟨0, 1, false, false, 0, 0⟩).left_click ≠ 0 := by
  decide

/-- C17: for every event state and every well-formed report with `button < 64` and
`(button & 3) = 2`: on terminator `M` the decode sets `right_click = 1` and
`right_just_pressed = true` when `right_just_pressed` was false, and otherwise reports
`right_click = 0` with the latch still set; on terminator `m` it clears
`right_just_pressed` and reports `right_click = 0`; in every case `target_x`,
`target_y` and `left_just_pressed` are unchanged and `left_click = 0`. -/
theorem parse_right_button (ev : MouseEvent) (button x y rest : List Nat)
    (hb : is_number button) (hx : is_number x) (hy : is_number y)
    (hb64 : dec_value button < 64) (hb2 : dec_value button &&& 3 = 2) :
    (ev.right_just_pressed = false →
      (parse_sgr_mouse_event (sgr_sequence button x y 77 ++ rest) ev).right_click = 1 ∧
      (parse_sgr_mouse_event (sgr_sequence button x y 77 ++ rest) ev).right_just_pressed
        = true) ∧
    (ev.right_just_pressed = true →
      (parse_sgr_mouse_event (sgr_sequence button x y 77 ++ rest) ev).right_click = 0 ∧
      (parse_sgr_mouse_event (sgr_sequence button x y 77 ++ rest) ev).right_just_pressed
        = true) ∧
    ((parse_sgr_mouse_event (sgr_sequence button x y 77 ++ rest) ev).right_click = 1 ↔
      ev.right_just_pressed = false) ∧
    (parse_sgr_mouse_event (sgr_sequence button x y 109 ++ rest) ev).right_just_pressed
      = false ∧
    (parse_sgr_mouse_event (sgr_sequence button x y 109 ++ rest) ev).right_click = 0 ∧
    (∀ t, t = 77 ∨ t = 109 →
      (parse_sgr_mouse_event (sgr_sequence button x y t ++ rest) ev).target_x
        = ev.target_x ∧
      (parse_sgr_mouse_event (sgr_sequence button x y t ++ rest) ev).target_y
        = ev.target_y ∧
      (parse_sgr_mouse_event (sgr_sequence button x y t ++ rest) ev).left_just_pressed
        = ev.left_just_pressed ∧
      (parse_sgr_mouse_event (sgr_sequence button x y t ++ rest) ev).left_click = 0) := by
  have hland : Int.land (dec_value button : Int) 3 = 2 := by
    have h : Int.land (dec_value button : Int) 3 = ((dec_value button &&& 3 : Nat) : Int) :=
      rfl
    rw [h, hb2]; rfl
  have h64 : (dec_value button : Int) < 64 := by exact_mod_cast hb64
  have hparse : ∀ t, t = 77 ∨ t = 109 →
      parse_sgr_mouse_event (sgr_sequence button x y t ++ rest) ev
        = if t = 77 ∧ ev.right_just_pressed = false then
            { ev with left_click := 0, right_click := 1, right_just_pressed := true }
          else if t = 109 then
            { ev with left_click := 0, right_click := 0, right_just_pressed := false }
          else { ev with left_click := 0, right_click := 0 } := by
    intro t ht
    have hscan := sscanf_sgr_sequence button x y t rest hb hx hy ht
    rw [store_int_button button hb64] at hscan
    exact parse_of_sscanf_right ev _ _ _ _ t hscan h64 hland
  have hM := hparse 77 (Or.inl rfl)
  have hm := hparse 109 (Or.inr rfl)
  simp only [true_and] at hM
  have e109 : ¬ ((109 : Nat) = 77) := by decide
  simp only [e109, false_and, if_false, if_true] at hm
  refine ⟨fun hr => ?_, fun hr => ?_, ?_, ?_, ?_, fun t ht => ?_⟩
  · rw [hM]; simp only [hr, if_true, and_self]
  · have e77 : ¬ ((77 : Nat) = 109) := by decide
    rw [hM]; simp only [hr, Bool.true_eq_false, if_false, e77, and_self]
  · rw [hM]
    cases hr : ev.right_just_pressed <;> simp
  · rw [hm]
  · rw [hm]
  · rw [hparse t ht]
    split
    · exact ⟨rfl, rfl, rfl, rfl⟩
    · split <;> exact ⟨rfl, rfl, rfl, rfl⟩

/-- The right press `ESC[<2;10;5M` decoded on a released and on a held right button,
and the right release `ESC[<2;10;5m`. -/
theorem parse_right_button_witness :
    (parse_sgr_mouse_event (sgr_sequence [50] [49, 48] [53] 77 ++ [])
        ⟨0, 1, false, false, 0, 0⟩).right_click = 1 ∧
    (parse_sgr_mouse_event (sgr_sequence [50] [49, 48] [53] 77 ++ [])
        ⟨0, 1, false, true, 0, 1⟩).right_click = 0 ∧
    (parse_sgr_mouse_event (sgr_sequence [50] [49, 48] [53] 109 ++ [])
        ⟨0, 1, false, true, 0, 1⟩).right_just_pressed = false :=
  ⟨((parse_right_button ⟨0, 1, false, false, 0, 0⟩ [50] [49, 48] [53] [] (by decide)
      (by decide) (by decide) (by decide) (by decide)).1 rfl).1,
   ((parse_right_button ⟨0, 1, false, true, 0, 1⟩ [50] [49, 48] [53] [] (by decide)
      (by decide) (by decide) (by decide) (by decide)).2.1 rfl).1,
   (parse_right_button ⟨0, 1, false, true, 0, 1⟩ [50] [49, 48] [53] [] (by decide)
      (by decide) (by decide) (by decide) (by decide)).2.2.2.1⟩

/-- C18: the click flags are one-shot. For every event state, whatever its click
flags were, and every buffer, after `parse_sgr_mouse_event`: `left_click` is 1 only
if this call decoded a left press (`sscanf` returned 4 with `button < 64`,
`(button & 3) = 0`, terminator `M`) while `left_just_pressed` was false; `right_click`
is 1 only if it decoded a right press (`(button & 3) = 2`, terminator `M`) while
`right_just_pressed` was false; the two flags are 0 or 1 and never both 1; a flag
equal to 1 has its latch set; so the dispatcher invokes at most one callback for the
decoded report. -/
theorem click_flags_one_shot (ev : MouseEvent) (buffer : List Nat) :
    ((parse_sgr_mouse_event buffer ev).left_click = 1 →
      ev.left_just_pressed = false ∧
      ∃ button x y, sscanf_sgr buffer = some (button, x, y, 77) ∧ button < 64 ∧
        Int.land button 3 = 0) ∧
    ((parse_sgr_mouse_event buffer ev).right_click = 1 →
      ev.right_just_pressed = false ∧
      ∃ button x y, sscanf_sgr buffer = some (button, x, y, 77) ∧ button < 64 ∧
        Int.land button 3 = 2) ∧
    ((parse_sgr_mouse_event buffer ev).left_click = 0 ∨
      (parse_sgr_mouse_event buffer ev).left_click = 1) ∧
    ((parse_sgr_mouse_event buffer ev).right_click = 0 ∨
      (parse_sgr_mouse_event buffer ev).right_click = 1) ∧
    ¬ ((parse_sgr_mouse_event buffer ev).left_click = 1 ∧
      (parse_sgr_mouse_event buffer ev).right_click = 1) ∧
    ((parse_sgr_mouse_event buffer ev).left_click = 1 →
      (parse_sgr_mouse_event buffer ev).left_just_pressed = true) ∧
    ((parse_sgr_mouse_event buffer ev).right_click = 1 →
      (parse_sgr_mouse_event buffer ev).right_just_pressed = true) ∧
    (∀ unlock, (mouse_callbacks unlock (parse_sgr_mouse_event buffer ev)).length ≤ 1) := by
  have h01 : ¬ ((0 : Int) = 1) := by decide
  have hcb : ∀ (unlock : Bool) (e : MouseEvent), (e.left_click = 0 ∨ e.right_click = 0) →
      (mouse_callbacks unlock e).length ≤ 1 := by
    intro unlock e he
    unfold mouse_callbacks
    cases unlock with
    | false => simp
    | true =>
      rcases he with h | h
      · simp only [h, if_true, ne_eq, not_true_eq_false, if_false, List.nil_append]
        split <;> simp
      · simp only [h, if_true, ne_eq, not_true_eq_false, if_false, List.append_nil]
        split <;> simp
  rcases parse_cases ev buffer with h | ⟨b, x, y, hs, h64, hl, hlatch, h⟩ |
      ⟨b, x, y, hs, h64, hl, h⟩ | ⟨b, x, y, hs, h64, hl, hlatch, h⟩ |
      ⟨b, x, y, hs, h64, hl, h⟩
  · rw [h]
    exact ⟨fun hc => absurd hc h01, fun hc => absurd hc h01, Or.inl rfl, Or.inl rfl,
      fun hc => absurd hc.1 h01, fun hc => absurd hc h01, fun hc => absurd hc h01,
      fun u => hcb u _ (Or.inl rfl)⟩
  · rw [h]
    exact ⟨fun _ => ⟨hlatch, b, x, y, hs, h64, hl⟩, fun hc => absurd hc h01, Or.inr rfl,
      Or.inl rfl, fun hc => absurd hc.2 h01, fun _ => rfl, fun hc => absurd hc h01,
      fun u => hcb u _ (Or.inr rfl)⟩
  · rw [h]
    exact ⟨fun hc => absurd hc h01, fun hc => absurd hc h01, Or.inl rfl, Or.inl rfl,
      fun hc => absurd hc.1 h01, fun hc => absurd hc h01, fun hc => absurd hc h01,
      fun u => hcb u _ (Or.inl rfl)⟩
  · rw [h]
    exact ⟨fun hc => absurd hc h01, fun _ => ⟨hlatch, b, x, y, hs, h64, hl⟩, Or.inl rfl,
      Or.inr rfl, fun hc => absurd hc.1 h01, fun hc => absurd hc h01, fun _ => rfl,
      fun u => hcb u _ (Or.inl rfl)⟩
  · rw [h]
    exact ⟨fun hc => absurd hc h01, fun hc => absurd hc h01, Or.inl rfl, Or.inl rfl,
      fun hc => absurd hc.1 h01, fun hc => absurd hc h01, fun hc => absurd hc h01,
      fun u => hcb u _ (Or.inl rfl)⟩

/-- The press `ESC[<0;10;5M` decoded from an event whose flags are both 1 and whose
left button is held: both flags are 0 afterwards. From a released left button the
left flag is 1 and the latch is set. -/
theorem click_flags_one_shot_witness :
    ¬ ((parse_sgr_mouse_event [27, 91, 60, 48, 59, 49, 48, 59, 53, 77]
        ⟨0, 1, true, false, 1, 1⟩).left_click = 1) ∧
    (parse_sgr_mouse_event [27, 91, 60, 48, 59, 49, 48, 59, 53, 77]
        ⟨0, 1, false, false, 1, 1⟩).left_just_pressed = true :=
  ⟨fun h => absurd ((click_flags_one_shot ⟨0, 1, true, false, 1, 1⟩
      [27, 91, 60, 48, 59, 49, 48, 59, 53, 77]).1 h).1 (by decide),
   (click_flags_one_shot ⟨0, 1, false, false, 1, 1⟩
      [27, 91, 60, 48, 59, 49, 48, 59, 53, 77]).2.2.2.2.2.1 (by decide)⟩

/-! ## Windows that the probe accepts and `sscanf` does not match -/

theorem is_body_byte_ne_zero {c : Nat} (h : is_body_byte c) : c ≠ 0 := by
  rcases h with h | h
  · exact isdigit_ne_zero h
  · omega

/-- A string of digits and `;` is a run of digits followed by nothing or by a `;`. -/
theorem body_split (l : List Nat) (hl : ∀ c ∈ l, is_body_byte c) :
    ∃ ds rem, l = ds ++ rem ∧ (∀ c ∈ ds, isdigit c = true) ∧
      (rem = [] ∨ ∃ tail, rem = 59 :: tail) := by
  induction l with
  | nil => exact ⟨[], [], rfl, fun c hc => absurd hc (List.not_mem_nil c), Or.inl rfl⟩
  | cons c l ih =>
    have hl1 : ∀ d ∈ l, is_body_byte d := fun d hd => hl d (List.mem_cons_of_mem _ hd)
    by_cases hc : isdigit c = true
    · obtain ⟨ds, rem, e, hds, hrem⟩ := ih hl1
      refine ⟨c :: ds, rem, by rw [e]; rfl, fun d hd => ?_, hrem⟩
      rcases List.mem_cons.mp hd with h | h
      · rw [h]; exact hc
      · exact hds d h
    · have h59 : c = 59 := by
        rcases hl c (List.mem_cons_self _ _) with h | h
        · exact absurd h hc
        · exact h
      exact ⟨[], c :: l, rfl, fun d hd => absurd hd (List.not_mem_nil d),
        Or.inr ⟨l, by rw [h59]⟩⟩

/-- The conversion `%d` fails on input that starts with `;`, `M` or `m`. -/
theorem scan_int_no_digit (c : Nat) (rest : List Nat) (hc : c = 59 ∨ c = 77 ∨ c = 109) :
    scan_int (c :: rest) = none := by
  rcases hc with h | h | h <;> subst h <;> simp [scan_int, skip_space, isspace, isdigit]

/-- One number field of a probed window: `%d` fails, or it reads a number that ends at
the terminator, or it reads a number that ends at a `;`. -/
theorem scan_field (body tail : List Nat) (t : Nat) (hbody : ∀ c ∈ body, is_body_byte c)
    (ht : t = 77 ∨ t = 109) :
    scan_int (body ++ t :: tail) = none ∨
    (is_number body ∧ (∀ c ∈ body, isdigit c = true) ∧
      scan_int (body ++ t :: tail) = some (store_int (dec_value body), t :: tail)) ∨
    (∃ ds more, is_number ds ∧ body = ds ++ 59 :: more ∧ (∀ c ∈ more, is_body_byte c) ∧
      scan_int (body ++ t :: tail)
        = some (store_int (dec_value ds), 59 :: (more ++ t :: tail))) := by
  have htd : isdigit t = false := by
    rcases ht with h | h <;> subst h <;> decide
  obtain ⟨ds, rem, e, hds, hrem⟩ := body_split body hbody
  subst e
  cases ds with
  | nil =>
    left
    rcases hrem with h | ⟨more, h⟩
    · subst h
      exact scan_int_no_digit t tail (Or.inr ht)
    · subst h
      exact scan_int_no_digit 59 _ (Or.inl rfl)
  | cons d ds =>
    have hnum : is_number (d :: ds) := ⟨by simp, hds⟩
    rcases hrem with h | ⟨more, h⟩
    · subst h
      right; left
      rw [List.append_nil]
      exact ⟨hnum, hds, scan_int_number (d :: ds) hnum t htd tail⟩
    · subst h
      right; right
      have hmore : ∀ c ∈ more, is_body_byte c := fun c hc =>
        hbody c (List.mem_append_right _ (List.mem_cons_of_mem _ hc))
      refine ⟨d :: ds, more, hnum, rfl, hmore, ?_⟩
      have h59 : isdigit 59 = false := by decide
      have e : (d :: ds ++ 59 :: more) ++ t :: tail = (d :: ds) ++ 59 :: (more ++ t :: tail) := by
        simp
      rw [e]
      exact scan_int_number (d :: ds) hnum 59 h59 _

/-- On a window that the probe accepts, `sscanf` returns less than 4, or its fourth
conversion reads a `;`, or the body is `button ; x ; y`. -/
theorem sscanf_sgr_probed (body rest : List Nat) (t : Nat)
    (hbody : ∀ c ∈ body, is_body_byte c) (ht : t = 77 ∨ t = 109) :
    sscanf_sgr (27 :: 91 :: 60 :: (body ++ t :: rest)) = none ∨
    (∃ button x y, sscanf_sgr (27 :: 91 :: 60 :: (body ++ t :: rest))
      = some (button, x, y, 59)) ∨
    (∃ button x y, is_number button ∧ is_number x ∧ is_number y ∧
      body = button ++ 59 :: (x ++ 59 :: y)) := by
  have ht59 : t ≠ 59 := by omega
  have hnz : ∀ c ∈ 27 :: 91 :: 60 :: (body ++ [t]), c ≠ 0 := by
    intro c hc
    simp only [List.mem_cons, List.mem_append, List.mem_singleton, List.not_mem_nil,
      or_false] at hc
    rcases hc with h | h | h | h | h
    · omega
    · omega
    · omega
    · exact is_body_byte_ne_zero (hbody c h)
    · omega
  have hstr : c_str (27 :: 91 :: 60 :: (body ++ t :: rest))
      = 27 :: 91 :: 60 :: (body ++ t :: c_str rest) := by
    have e : 27 :: 91 :: 60 :: (body ++ t :: rest) = (27 :: 91 :: 60 :: (body ++ [t])) ++ rest :=
      by simp
    rw [e, c_str_append _ _ hnz]
    simp
  unfold sscanf_sgr
  rw [hstr]
  simp only [match_char, if_true, Option.some_bind]
  rcases scan_field body (c_str rest) t hbody ht with h1 | ⟨-, -, h1⟩ |
      ⟨b, body2, hb, e1, hbody2, h1⟩
  · left; rw [h1]; rfl
  · left; rw [h1]
    simp only [Option.some_bind, match_char, ht59, if_false, Option.none_bind]
  · rw [h1]
    simp only [Option.some_bind, match_char, if_true]
    rcases scan_field body2 (c_str rest) t hbody2 ht with h2 | ⟨-, -, h2⟩ |
        ⟨x, body3, hx, e2, hbody3, h2⟩
    · left; rw [h2]; rfl
    · left; rw [h2]
      simp only [Option.some_bind, match_char, ht59, if_false, Option.none_bind]
    · rw [h2]
      simp only [Option.some_bind, match_char, if_true]
      rcases scan_field body3 (c_str rest) t hbody3 ht with h3 | ⟨hy, -, h3⟩ |
          ⟨y, body4, hy, e3, hbody4, h3⟩
      · left; rw [h3]; rfl
      · right; right
        exact ⟨b, x, body3, hb, hx, hy, by rw [e1, e2]⟩
      · right; left
        rw [h3]
        exact ⟨_, _, _, rfl⟩

/-- When a fourth `;` follows `button ; x ; y`, `sscanf` returns 4 and the character it
stores is that `;`. -/
theorem sscanf_sgr_fourth_semicolon (button x y more : List Nat) (hb : is_number button)
    (hx : is_number x) (hy : is_number y) :
    sscanf_sgr (27 :: 91 :: 60 :: (button ++ 59 :: (x ++ 59 :: (y ++ 59 :: more))))
      = some (store_int (dec_value button), store_int (dec_value x),
          store_int (dec_value y), 59) := by
  have h59 : isdigit 59 = false := by decide
  have hnz : ∀ c ∈ 27 :: 91 :: 60 :: (button ++ 59 :: (x ++ 59 :: (y ++ [59]))), c ≠ 0 := by
    intro c hc
    have hmem : c = 27 ∨ c = 91 ∨ c = 60 ∨ c = 59 ∨ c ∈ button ∨ c ∈ x ∨ c ∈ y := by
      simp only [List.mem_cons, List.mem_append, List.mem_singleton, List.not_mem_nil,
        or_false] at hc
      tauto
    rcases hmem with h | h | h | h | h | h | h
    · omega
    · omega
    · omega
    · omega
    · exact isdigit_ne_zero (hb.2 c h)
    · exact isdigit_ne_zero (hx.2 c h)
    · exact isdigit_ne_zero (hy.2 c h)
  have hstr : c_str (27 :: 91 :: 60 :: (button ++ 59 :: (x ++ 59 :: (y ++ 59 :: more))))
      = 27 :: 91 :: 60 :: (button ++ 59 :: (x ++ 59 :: (y ++ 59 :: c_str more))) := by
    have e : 27 :: 91 :: 60 :: (button ++ 59 :: (x ++ 59 :: (y ++ 59 :: more)))
        = (27 :: 91 :: 60 :: (button ++ 59 :: (x ++ 59 :: (y ++ [59])))) ++ more := by simp
    rw [e, c_str_append _ _ hnz]
    simp
  unfold sscanf_sgr
  rw [hstr]
  simp [match_char, scan_int_number button hb 59 h59, scan_int_number x hx 59 h59,
    scan_int_number y hy 59 h59, scan_char]

/-- C15: a mouse pattern that does not match is decoded as a no-op. For every event
state and every window `ESC [ <`, digits and `;`, `M` or `m` (which
`get_mouse_event_length` accepts as complete) whose body is not `button ; x ; y`,
`parse_sgr_mouse_event` leaves `left_just_pressed`, `right_just_pressed`, `target_x`
and `target_y` unchanged and reports `left_click = right_click = 0`; the same holds
for every buffer `ESC [ < button ; x ; y ;` followed by anything, where the character
stored by `%c` is the `;`. -/
theorem parse_non_matching (ev : MouseEvent) :
    (∀ (body rest : List Nat) (t : Nat), (∀ c ∈ body, is_body_byte c) →
      (t = 77 ∨ t = 109) →
      (¬ ∃ button x y, is_number button ∧ is_number x ∧ is_number y ∧
        body = button ++ 59 :: (x ++ 59 :: y)) →
      get_mouse_event_length (27 :: 91 :: 60 :: (body ++ t :: rest))
          (27 :: 91 :: 60 :: (body ++ t :: rest)).length = body.length + 4 ∧
      parse_sgr_mouse_event (27 :: 91 :: 60 :: (body ++ t :: rest)) ev
        = { ev with left_click := 0, right_click := 0 } ∧
      (parse_sgr_mouse_event (27 :: 91 :: 60 :: (body ++ t :: rest)) ev).left_just_pressed
        = ev.left_just_pressed ∧
      (parse_sgr_mouse_event (27 :: 91 :: 60 :: (body ++ t :: rest)) ev).right_just_pressed
        = ev.right_just_pressed ∧
      (parse_sgr_mouse_event (27 :: 91 :: 60 :: (body ++ t :: rest)) ev).target_x
        = ev.target_x ∧
      (parse_sgr_mouse_event (27 :: 91 :: 60 :: (body ++ t :: rest)) ev).target_y
        = ev.target_y ∧
      (parse_sgr_mouse_event (27 :: 91 :: 60 :: (body ++ t :: rest)) ev).left_click = 0 ∧
      (parse_sgr_mouse_event (27 :: 91 :: 60 :: (body ++ t :: rest)) ev).right_click = 0) ∧
    (∀ button x y more : List Nat, is_number button → is_number x → is_number y →
      parse_sgr_mouse_event
          (27 :: 91 :: 60 :: (button ++ 59 :: (x ++ 59 :: (y ++ 59 :: more)))) ev
        = { ev with left_click := 0, right_click := 0 }) := by
  constructor
  · intro body rest t hbody ht hform
    have hparse : parse_sgr_mouse_event (27 :: 91 :: 60 :: (body ++ t :: rest)) ev
        = { ev with left_click := 0, right_click := 0 } := by
      rcases sscanf_sgr_probed body rest t hbody ht with h | ⟨b, x, y, h⟩ | h
      · exact parse_of_sscanf_none ev _ h
      · exact parse_of_sscanf_ignored ev _ b x y 59 h
          (Or.inr (Or.inr (Or.inr ⟨by decide, by decide⟩)))
      · exact absurd h hform
    refine ⟨?_, hparse, ?_⟩
    · exact get_mouse_event_length_complete body rest t _ hbody ht
        (by simp only [List.length_cons, List.length_append]; omega)
    · rw [hparse]
      exact ⟨rfl, rfl, rfl, rfl, rfl, rfl⟩
  · intro button x y more hb hx hy
    exact parse_of_sscanf_ignored ev _ _ _ _ 59
      (sscanf_sgr_fourth_semicolon button x y more hb hx hy)
      (Or.inr (Or.inr (Or.inr ⟨by decide, by decide⟩)))

/-- The windows `ESC[<M` and `ESC[<0;10;5;7M` decoded while both buttons are held and
both click flags are set; the windows `ESC[<0;10M` and `ESC[<0;;5M` likewise. -/
theorem parse_non_matching_witness :
    parse_sgr_mouse_event (27 :: 91 :: 60 :: ([] ++ 77 :: [])) ⟨4, 2, true, true, 1, 1⟩
      = ⟨4, 2, true, true, 0, 0⟩ ∧
    parse_sgr_mouse_event
        (27 :: 91 :: 60 :: ([48] ++ 59 :: ([49, 48] ++ 59 :: ([53] ++ 59 :: [55, 77]))))
        ⟨4, 2, true, true, 1, 1⟩
      = ⟨4, 2, true, true, 0, 0⟩ ∧
    parse_sgr_mouse_event [27, 91, 60, 48, 59, 49, 48, 77] ⟨4, 2, true, true, 1, 1⟩
      = ⟨4, 2, true, true, 0, 0⟩ ∧
    parse_sgr_mouse_event [27, 91, 60, 48, 59, 59, 53, 77] ⟨4, 2, true, true, 1, 1⟩
      = ⟨4, 2, true, true, 0, 0⟩ :=
  ⟨((parse_non_matching ⟨4, 2, true, true, 1, 1⟩).1 [] [] 77
      (fun c hc => absurd hc (List.not_mem_nil c)) (Or.inl rfl)
      (by rintro ⟨b, x, y, -, -, -, h⟩; simp at h)).2.1,
   (parse_non_matching ⟨4, 2, true, true, 1, 1⟩).2 [48] [49, 48] [53] [55, 77]
      (by decide) (by decide) (by decide),
   by decide, by decide⟩

/-! ## The scan terminates and stays inside the buffer -/

/-- The number of bytes an iteration of the scan consumes is 1, 3, or the value of
the probe, which is then at least 4. -/
theorem scan_item_amount (unlock : Bool) (buffer : List Nat) (length : Nat)
    (event : MouseEvent) (key_states : List Bool)
    (r : Nat × MouseEvent × List Bool × List Callback)
    (h : scan_item unlock buffer length event key_states = some r) :
    r.1 = 1 ∨ r.1 = 3 ∨
      (4 ≤ r.1 ∧ r.1 = get_mouse_event_length buffer length) := by
  by_cases hm : is_mouse_event buffer length = true
  · unfold scan_item at h
    simp only [hm, if_true] at h
    by_cases hl : get_mouse_event_length buffer length > 0
    · simp only [hl, if_true, Option.some.injEq] at h
      subst h
      rcases get_mouse_event_length_bounds buffer length with h0 | ⟨h4, -⟩
      · omega
      · exact Or.inr (Or.inr ⟨h4, rfl⟩)
    · simp only [hl, if_false] at h
      exact absurd h (by simp)
  · have hm1 : is_mouse_event buffer length = false := by simpa using hm
    by_cases ha : is_arrow_key buffer length = true
    · rw [scan_item_of_arrow unlock buffer length event key_states hm1 ha] at h
      simp only [Option.some.injEq] at h
      subst h
      exact Or.inr (Or.inl rfl)
    · have ha1 : is_arrow_key buffer length = false := by simpa using ha
      by_cases hk : is_plain_key (buffer.getD 0 0)
      · rw [scan_item_of_key unlock buffer length event key_states hm1 ha1 hk] at h
        simp only [Option.some.injEq] at h
        subst h
        exact Or.inl rfl
      · rw [scan_item_of_other unlock buffer length event key_states hm1 ha1 hk] at h
        simp only [Option.some.injEq] at h
        subst h
        exact Or.inl rfl

theorem scan_step_amount (unlock : Bool) (input_buffer : List Nat) (s s1 : Scan)
    (cbs : List Callback) (h : scan_step unlock input_buffer s = some (s1, cbs)) :
    s1.processed = s.processed + 1 ∨ s1.processed = s.processed + 3 ∨
      (4 ≤ get_mouse_event_length (input_buffer.drop s.processed)
          (input_buffer.length - s.processed) ∧
        s1.processed = s.processed
          + get_mouse_event_length (input_buffer.drop s.processed)
              (input_buffer.length - s.processed)) := by
  unfold scan_step at h
  cases hitem : scan_item unlock (input_buffer.drop s.processed)
      (input_buffer.length - s.processed) s.event s.key_states with
  | none => simp [hitem] at h
  | some r =>
    have hamount := scan_item_amount unlock _ _ _ _ r hitem
    simp only [hitem, Option.some.injEq, Prod.mk.injEq] at h
    obtain ⟨hs, -⟩ := h
    subst hs
    simp only
    rcases hamount with h1 | h1 | ⟨h1, h2⟩
    · left; omega
    · right; left; omega
    · right; right
      exact ⟨by omega, by omega⟩

theorem scan_loop_processed_le (unlock : Bool) (input_buffer : List Nat) (fuel : Nat)
    (s : Scan) (hs : s.processed ≤ input_buffer.length) :
    s.processed ≤ (scan_loop unlock input_buffer fuel s).1.processed ∧
    (scan_loop unlock input_buffer fuel s).1.processed ≤ input_buffer.length := by
  induction fuel generalizing s with
  | zero => exact ⟨Nat.le_refl _, hs⟩
  | succ fuel ih =>
    rw [scan_loop]
    by_cases hp : s.processed < input_buffer.length
    · simp only [hp, if_true]
      cases hstep : scan_step unlock input_buffer s with
      | none => exact ⟨Nat.le_refl _, hs⟩
      | some r =>
        obtain ⟨h1, h2⟩ := scan_step_advance unlock input_buffer s r.1 r.2 hp hstep
        obtain ⟨i1, i2⟩ := ih r.1 h2
        exact ⟨by simp only; omega, i2⟩
    · simp only [hp, if_false]
      exact ⟨Nat.le_refl _, hs⟩

/-- C19: the inner scan loop of `process_input` terminates and never consumes more
than the buffer holds. The probe `get_mouse_event_length` on a window of length `m`
returns 0 or a value in `4..m`. An iteration entered with `processed` below the
buffer length either leaves the loop or strictly increases `processed`, by 1, by 3
or by the probed length (at least 4), and keeps it within the buffer length. The
loop therefore exits after at most `input_buffer_length - processed` iterations
(more iterations change nothing), at `processed >= input_buffer_length` or at a
`break`, with `processed <= input_buffer_length`; and after a pass the retained
length plus `processed` is the length that was scanned, so the subtraction
`input_buffer_length - processed` does not underflow. -/
theorem scan_terminates (unlock : Bool) (input_buffer : List Nat) :
    (∀ (buffer : List Nat) (m : Nat), get_mouse_event_length buffer m = 0 ∨
      (4 ≤ get_mouse_event_length buffer m ∧ get_mouse_event_length buffer m ≤ m)) ∧
    (∀ s : Scan, s.processed < input_buffer.length →
      scan_step unlock input_buffer s = none ∨
      ∃ s1 cbs, scan_step unlock input_buffer s = some (s1, cbs) ∧
        s.processed < s1.processed ∧ s1.processed ≤ input_buffer.length ∧
        (s1.processed = s.processed + 1 ∨ s1.processed = s.processed + 3 ∨
          (4 ≤ get_mouse_event_length (input_buffer.drop s.processed)
              (input_buffer.length - s.processed) ∧
            s1.processed = s.processed
              + get_mouse_event_length (input_buffer.drop s.processed)
                  (input_buffer.length - s.processed)))) ∧
    (∀ (s : Scan) (fuel : Nat), s.processed ≤ input_buffer.length →
      input_buffer.length - s.processed ≤ fuel →
      scan_loop unlock input_buffer fuel s
        = scan_loop unlock input_buffer (input_buffer.length - s.processed) s ∧
      s.processed ≤ (scan_loop unlock input_buffer fuel s).1.processed ∧
      (scan_loop unlock input_buffer fuel s).1.processed ≤ input_buffer.length ∧
      (input_buffer.length ≤ (scan_loop unlock input_buffer fuel s).1.processed ∨
        scan_step unlock input_buffer (scan_loop unlock input_buffer fuel s).1 = none)) ∧
    (∀ (st : LoopState) (chunk : List Nat), chunk ≠ [] →
      st.input_buffer.length + chunk.length < MAX_BUFFER_SIZE →
      (scan_loop st.unlock (st.input_buffer ++ chunk) (st.input_buffer ++ chunk).length
          ⟨0, st.event, st.key_states⟩).1.processed
        ≤ (st.input_buffer ++ chunk).length ∧
      (process_input_iter st chunk).1.input_buffer.length
          + (scan_loop st.unlock (st.input_buffer ++ chunk)
              (st.input_buffer ++ chunk).length
              ⟨0, st.event, st.key_states⟩).1.processed
        = (st.input_buffer ++ chunk).length) := by
  refine ⟨get_mouse_event_length_bounds, fun s hp => ?_, fun s fuel hs hfuel => ?_,
    fun st chunk hne hfit => ?_⟩
  · cases hstep : scan_step unlock input_buffer s with
    | none => exact Or.inl rfl
    | some r =>
      obtain ⟨h1, h2⟩ := scan_step_advance unlock input_buffer s r.1 r.2 hp hstep
      exact Or.inr ⟨r.1, r.2, rfl, h1, h2, scan_step_amount unlock input_buffer s r.1 r.2 hstep⟩
  · obtain ⟨e1, e2⟩ := scan_loop_exit unlock input_buffer fuel s hfuel hs
    exact ⟨scan_loop_fuel unlock input_buffer fuel _ s hfuel (Nat.le_refl _),
      (scan_loop_processed_le unlock input_buffer fuel s hs).1, e1, e2⟩
  · have hle := (scan_loop_processed_le st.unlock (st.input_buffer ++ chunk)
      (st.input_buffer ++ chunk).length ⟨0, st.event, st.key_states⟩ (Nat.zero_le _)).2
    refine ⟨hle, ?_⟩
    rw [(process_input_iter_append st chunk hne hfit).1, List.length_drop]
    omega

/-- The buffer `a`, `ESC [ A`, `ESC[<0;1;1M`, `ESC[<7;`: the iterations at offsets 0,
1 and 4 advance by 1, 3 and 9, and the loop stops at offset 13 on the incomplete
report. -/
theorem scan_terminates_witness :
    (scan_loop true
      [97, 27, 91, 65, 27, 91, 60, 48, 59, 49, 59, 49, 77, 27, 91, 60, 55, 59] 18
      ⟨0, initial_state.event, initial_state.key_states⟩).1.processed = 13 ∧
    (scan_loop true
      [97, 27, 91, 65, 27, 91, 60, 48, 59, 49, 59, 49, 77, 27, 91, 60, 55, 59] 18
      ⟨0, initial_state.event, initial_state.key_states⟩).1.processed ≤ 18 := by
  have h := (scan_terminates true
    [97, 27, 91, 65, 27, 91, 60, 48, 59, 49, 59, 49, 77, 27, 91, 60, 55, 59]).2.2.1
    ⟨0, initial_state.event, initial_state.key_states⟩ 18 (by decide) (by decide)
  exact ⟨by decide, h.2.2.1⟩

/-! ## The pending buffer -/

theorem is_mouse_event_take (buffer : List Nat) (length : Nat)
    (h : is_mouse_event buffer length = true) : buffer.take 3 = [27, 91, 60] := by
  simp only [is_mouse_event, Bool.and_eq_true, beq_iff_eq] at h
  obtain ⟨⟨⟨-, h0⟩, h1⟩, h2⟩ := h
  obtain ⟨r0, rfl⟩ := getD_eq_head buffer 27 (by decide) h0
  simp only [List.getD_cons_succ] at h1 h2
  obtain ⟨r1, rfl⟩ := getD_eq_head r0 91 (by decide) h1
  simp only [List.getD_cons_succ] at h2
  obtain ⟨r2, rfl⟩ := getD_eq_head r1 60 (by decide) h2
  rfl

theorem scan_step_eq_none (unlock : Bool) (input_buffer : List Nat) (s : Scan)
    (h : scan_step unlock input_buffer s = none) :
    scan_item unlock (input_buffer.drop s.processed) (input_buffer.length - s.processed)
      s.event s.key_states = none := by
  unfold scan_step at h
  cases hitem : scan_item unlock (input_buffer.drop s.processed)
      (input_buffer.length - s.processed) s.event s.key_states with
  | none => rfl
  | some r => simp [hitem] at h

/-- Whatever the state before it, an outer iteration that reads a non-empty chunk
leaves a buffer of the pending shape. -/
theorem process_input_iter_pending_invariant (st : LoopState) (chunk : List Nat)
    (hne : chunk ≠ []) :
    pending_invariant (process_input_iter st chunk).1.input_buffer := by
  by_cases hfit : st.input_buffer.length + chunk.length < MAX_BUFFER_SIZE
  · obtain ⟨hle, hexit⟩ := scan_loop_exit st.unlock (st.input_buffer ++ chunk)
      (st.input_buffer ++ chunk).length ⟨0, st.event, st.key_states⟩ (by simp)
      (Nat.zero_le _)
    rw [(process_input_iter_append st chunk hne hfit).1]
    generalize (scan_loop st.unlock (st.input_buffer ++ chunk)
      (st.input_buffer ++ chunk).length ⟨0, st.event, st.key_states⟩).1 = r at hle hexit
    have hlen : (st.input_buffer ++ chunk).length < 1024 := by
      simp only [List.length_append]; exact hfit
    refine ⟨by rw [List.length_drop]; omega, ?_⟩
    rcases hexit with h | h
    · left
      exact List.drop_eq_nil_of_le h
    · right
      have hitem := scan_step_eq_none st.unlock _ r h
      rw [scan_item_eq_none_iff] at hitem
      rw [List.length_drop]
      exact ⟨is_mouse_event_take _ _ hitem.1, hitem.2⟩
  · rw [process_input_iter_discard st chunk hne (by omega)]
    exact ⟨Nat.zero_le _, Or.inl rfl⟩

theorem act_pending_invariant (st : LoopState) (a : Action)
    (h : pending_invariant st.input_buffer) :
    pending_invariant (act st a).1.input_buffer := by
  cases a with
  | read chunk =>
    by_cases hne : chunk = []
    · subst hne
      exact h
    · exact process_input_iter_pending_invariant st chunk hne
  | lock => exact h
  | unlock => exact h
  | release key => exact h

theorem run_pending_invariant (acts : List Action) (st : LoopState)
    (h : pending_invariant st.input_buffer) :
    pending_invariant (run st acts).1.input_buffer := by
  induction acts generalizing st with
  | nil => exact h
  | cons a acts ih => exact ih (act st a).1 (act_pending_invariant st a h)

/-- C20: the pending-buffer invariant of `process_input`. After every iteration of the
outer loop, in every state the loop can reach, the receive buffer has at most 1023
bytes and is either empty or begins with `ESC [ <` and is a window on which
`get_mouse_event_length` returns 0. Each iteration that reads a chunk establishes
this whatever the state before it; what it retains is the buffer `pending ++ chunk`
without its first `processed` bytes, in the same order, with `processed` within the
buffer, and nothing when it discards. -/
theorem pending_buffer_invariant (acts : List Action) :
    pending_invariant (run initial_state acts).1.input_buffer ∧
    (run initial_state acts).1.input_buffer.length ≤ 1023 ∧
    ((run initial_state acts).1.input_buffer = [] ∨
      ((run initial_state acts).1.input_buffer.take 3 = [27, 91, 60] ∧
        get_mouse_event_length (run initial_state acts).1.input_buffer
          (run initial_state acts).1.input_buffer.length = 0)) ∧
    (∀ (st : LoopState) (chunk : List Nat), chunk ≠ [] →
      pending_invariant (process_input_iter st chunk).1.input_buffer ∧
      (st.input_buffer.length + chunk.length < MAX_BUFFER_SIZE →
        (scan_loop st.unlock (st.input_buffer ++ chunk) (st.input_buffer ++ chunk).length
            ⟨0, st.event, st.key_states⟩).1.processed
          ≤ (st.input_buffer ++ chunk).length ∧
        (process_input_iter st chunk).1.input_buffer
          = (st.input_buffer ++ chunk).drop
              (scan_loop st.unlock (st.input_buffer ++ chunk)
                (st.input_buffer ++ chunk).length
                ⟨0, st.event, st.key_states⟩).1.processed ∧
        (st.input_buffer ++ chunk).take
              (scan_loop st.unlock (st.input_buffer ++ chunk)
                (st.input_buffer ++ chunk).length
                ⟨0, st.event, st.key_states⟩).1.processed
            ++ (process_input_iter st chunk).1.input_buffer
          = st.input_buffer ++ chunk) ∧
      (MAX_BUFFER_SIZE ≤ st.input_buffer.length + chunk.length →
        (process_input_iter st chunk).1.input_buffer = [])) := by
  have hinit : pending_invariant initial_state.input_buffer := ⟨Nat.zero_le _, Or.inl rfl⟩
  have hinv := run_pending_invariant acts initial_state hinit
  refine ⟨hinv, hinv.1, hinv.2, fun st chunk hne => ?_⟩
  refine ⟨process_input_iter_pending_invariant st chunk hne, fun hfit => ?_, fun hfull => ?_⟩
  · have hle := (scan_loop_processed_le st.unlock (st.input_buffer ++ chunk)
      (st.input_buffer ++ chunk).length ⟨0, st.event, st.key_states⟩ (Nat.zero_le _)).2
    have hbuf := (process_input_iter_append st chunk hne hfit).1
    refine ⟨hle, hbuf, ?_⟩
    rw [hbuf, List.take_append_drop]
  · rw [process_input_iter_discard st chunk hne hfull]

/-- The reads `a ESC[<0;1` and then `;`: the report stays pending, first as the six
bytes `ESC[<0;1` and then as seven. -/
theorem pending_buffer_invariant_witness :
    (run initial_state [Action.read [97, 27, 91, 60, 48, 59, 49]]).1.input_buffer
      = [27, 91, 60, 48, 59, 49] ∧
    pending_invariant
      (run initial_state [Action.read [97, 27, 91, 60, 48, 59, 49]]).1.input_buffer ∧
    (process_input_iter
      (run initial_state [Action.read [97, 27, 91, 60, 48, 59, 49]]).1 [59]).1.input_buffer
      = [27, 91, 60, 48, 59, 49, 59] := by
  refine ⟨by decide, (pending_buffer_invariant [Action.read [97, 27, 91, 60, 48, 59, 49]]).1,
    ?_⟩
  have h := ((pending_buffer_invariant []).2.2.2
    (run initial_state [Action.read [97, 27, 91, 60, 48, 59, 49]]).1 [59] (by decide)).2.1
    (by decide)
  rw [h.2.1]
  decide

/-! ## What a pass dispatches -/

/-- The click callbacks after a decode, and the latches it leaves, depend on the event
before the decode through its latches only: stale click flags and stale target
coordinates play no part. -/
theorem parse_same_latches (unlock : Bool) (buffer : List Nat) (e1 e2 : MouseEvent)
    (h : same_latches e1 e2) :
    same_latches (parse_sgr_mouse_event buffer e1) (parse_sgr_mouse_event buffer e2) ∧
    mouse_callbacks unlock (parse_sgr_mouse_event buffer e1)
      = mouse_callbacks unlock (parse_sgr_mouse_event buffer e2) := by
  obtain ⟨tx1, ty1, l1, r1, lc1, rc1⟩ := e1
  obtain ⟨tx2, ty2, l2, r2, lc2, rc2⟩ := e2
  obtain ⟨hl, hr⟩ := h
  simp only at hl hr
  subst hl hr
  unfold parse_sgr_mouse_event same_latches mouse_callbacks
  cases sscanf_sgr buffer with
  | none => simp
  | some r =>
    obtain ⟨button, x, y, event_type⟩ := r
    simp only
    split_ifs <;> simp_all

theorem scan_item_same_latches (unlock : Bool) (buffer : List Nat) (length : Nat)
    (e1 e2 : MouseEvent) (ks1 ks2 : List Bool) (h : same_latches e1 e2) :
    (scan_item unlock buffer length e1 ks1 = none ∧
      scan_item unlock buffer length e2 ks2 = none) ∨
    ∃ n ea eb ka kb cbs, scan_item unlock buffer length e1 ks1 = some (n, ea, ka, cbs) ∧
      scan_item unlock buffer length e2 ks2 = some (n, eb, kb, cbs) ∧
      same_latches ea eb := by
  by_cases hm : is_mouse_event buffer length = true
  · by_cases hl : get_mouse_event_length buffer length > 0
    · right
      obtain ⟨hs, hc⟩ := parse_same_latches unlock buffer e1 e2 h
      refine ⟨get_mouse_event_length buffer length, parse_sgr_mouse_event buffer e1,
        parse_sgr_mouse_event buffer e2, ks1, ks2,
        mouse_callbacks unlock (parse_sgr_mouse_event buffer e1), ?_, ?_, hs⟩
      · unfold scan_item
        simp only [hm, if_true, hl]
      · unfold scan_item
        simp only [hm, if_true, hl, hc]
    · left
      constructor <;> (unfold scan_item; simp only [hm, if_true, hl, if_false])
  · have hm1 : is_mouse_event buffer length = false := by simpa using hm
    right
    by_cases ha : is_arrow_key buffer length = true
    · exact ⟨_, _, _, _, _, _, scan_item_of_arrow unlock buffer length e1 ks1 hm1 ha,
        scan_item_of_arrow unlock buffer length e2 ks2 hm1 ha, h⟩
    · have ha1 : is_arrow_key buffer length = false := by simpa using ha
      by_cases hk : is_plain_key (buffer.getD 0 0)
      · exact ⟨_, _, _, _, _, _, scan_item_of_key unlock buffer length e1 ks1 hm1 ha1 hk,
          scan_item_of_key unlock buffer length e2 ks2 hm1 ha1 hk, h⟩
      · exact ⟨_, _, _, _, _, _, scan_item_of_other unlock buffer length e1 ks1 hm1 ha1 hk,
          scan_item_of_other unlock buffer length e2 ks2 hm1 ha1 hk, h⟩

/-- The callbacks of the scan do not depend on the click flags, the target
coordinates or the key table the scan starts with. -/
theorem scan_loop_same_latches (unlock : Bool) (input_buffer : List Nat) (fuel : Nat)
    (s1 s2 : Scan) (hp : s1.processed = s2.processed)
    (h : same_latches s1.event s2.event) :
    (scan_loop unlock input_buffer fuel s1).2 = (scan_loop unlock input_buffer fuel s2).2 ∧
    (scan_loop unlock input_buffer fuel s1).1.processed
      = (scan_loop unlock input_buffer fuel s2).1.processed ∧
    same_latches (scan_loop unlock input_buffer fuel s1).1.event
      (scan_loop unlock input_buffer fuel s2).1.event := by
  induction fuel generalizing s1 s2 with
  | zero => exact ⟨rfl, hp, h⟩
  | succ fuel ih =>
    rw [scan_loop, scan_loop]
    by_cases hlt : s1.processed < input_buffer.length
    · have hlt2 : s2.processed < input_buffer.length := by omega
      simp only [hlt, hlt2, if_true]
      unfold scan_step
      rcases scan_item_same_latches unlock (input_buffer.drop s1.processed)
          (input_buffer.length - s1.processed) s1.event s2.event s1.key_states
          s2.key_states h with ⟨h1, h2⟩ | ⟨n, ea, eb, ka, kb, cbs, h1, h2, hs⟩
      · rw [hp] at h1 h2
        rw [← hp] at h1
        simp only [h1, h2]
        exact ⟨trivial, hp, h⟩
      · rw [hp] at h2
        simp only [h1, h2]
        obtain ⟨i1, i2, i3⟩ := ih ⟨s1.processed + n, ea, ka⟩ ⟨s2.processed + n, eb, kb⟩
          (by simp only; omega) hs
        exact ⟨by rw [i1], i2, i3⟩
    · have hlt2 : ¬ s2.processed < input_buffer.length := by omega
      simp only [hlt, hlt2, if_false]
      exact ⟨trivial, hp, h⟩

/-- What an outer iteration dispatches depends on what went before it only through
the bytes still in the receive buffer, the two button latches and the gate. -/
theorem process_input_iter_same_latches (s1 s2 : LoopState) (chunk : List Nat)
    (hbuf : s1.input_buffer = s2.input_buffer) (hgate : s1.unlock = s2.unlock)
    (h : same_latches s1.event s2.event) :
    (process_input_iter s1 chunk).2 = (process_input_iter s2 chunk).2 := by
  unfold process_input_iter
  rw [hbuf, hgate]
  by_cases h0 : chunk.length = 0
  · simp only [h0, if_true]
  · by_cases hfit : s2.input_buffer.length + chunk.length < MAX_BUFFER_SIZE
    · simp only [h0, if_false, hfit, if_true]
      exact (scan_loop_same_latches s2.unlock _ _ ⟨0, s1.event, s1.key_states⟩
        ⟨0, s2.event, s2.key_states⟩ rfl h).1
    · simp only [h0, if_false, hfit]

theorem mem_mouse_callbacks (unlock : Bool) (event : MouseEvent) (cb : Callback)
    (h : cb ∈ mouse_callbacks unlock event) :
    unlock = true ∧
    ((event.left_click ≠ 0 ∧ cb = Callback.mouse_left_event event.target_x event.target_y) ∨
      (event.right_click ≠ 0 ∧ cb = Callback.mouse_right_event)) := by
  unfold mouse_callbacks at h
  cases unlock with
  | false => simp at h
  | true =>
    refine ⟨rfl, ?_⟩
    simp only [if_true, List.mem_append] at h
    rcases h with h | h
    · by_cases hl : event.left_click ≠ 0
      · rw [if_pos hl, List.mem_singleton] at h
        exact Or.inl ⟨hl, h⟩
      · rw [if_neg hl] at h
        exact absurd h (List.not_mem_nil cb)
    · by_cases hr : event.right_click ≠ 0
      · rw [if_pos hr, List.mem_singleton] at h
        exact Or.inr ⟨hr, h⟩
      · rw [if_neg hr] at h
        exact absurd h (List.not_mem_nil cb)

/-- Every callback invoked by an iteration of the scan is decoded at the front of the
window of that iteration: a click callback is invoked only when the decode of this
window reads a press of that button. -/
theorem scan_item_decoded (unlock : Bool) (buffer : List Nat) (event : MouseEvent)
    (key_states : List Bool) (r : Nat × MouseEvent × List Bool × List Callback)
    (hne : buffer ≠ [])
    (h : scan_item unlock buffer buffer.length event key_states = some r) :
    ∀ cb ∈ r.2.2.2, decoded_at cb buffer := by
  intro cb hcb
  by_cases hm : is_mouse_event buffer buffer.length = true
  · unfold scan_item at h
    simp only [hm, if_true] at h
    by_cases hl : get_mouse_event_length buffer buffer.length > 0
    · simp only [hl, if_true, Option.some.injEq] at h
      subst h
      simp only at hcb
      obtain ⟨-, hcase⟩ := mem_mouse_callbacks unlock _ cb hcb
      have h01 : ¬ ((0 : Int) ≠ 0) := by decide
      rcases parse_cases event buffer with hp | ⟨b, x, y, hs, h64, hland, -, hp⟩ |
          ⟨b, x, y, hs, h64, hland, hp⟩ | ⟨b, x, y, hs, h64, hland, -, hp⟩ |
          ⟨b, x, y, hs, h64, hland, hp⟩
      · rw [hp] at hcase
        rcases hcase with ⟨hc, -⟩ | ⟨hc, -⟩ <;> exact absurd hc h01
      · rw [hp] at hcase
        rcases hcase with ⟨-, hc⟩ | ⟨hc, -⟩
        · rw [hc]
          exact ⟨hm, hl, b, x, y, hs, h64, hland, rfl, rfl⟩
        · exact absurd hc h01
      · rw [hp] at hcase
        rcases hcase with ⟨hc, -⟩ | ⟨hc, -⟩ <;> exact absurd hc h01
      · rw [hp] at hcase
        rcases hcase with ⟨hc, -⟩ | ⟨-, hc⟩
        · exact absurd hc h01
        · rw [hc]
          exact ⟨hm, hl, b, x, y, hs, h64, hland⟩
      · rw [hp] at hcase
        rcases hcase with ⟨hc, -⟩ | ⟨hc, -⟩ <;> exact absurd hc h01
    · simp only [hl, if_false] at h
      exact absurd h (by simp)
  · have hm1 : is_mouse_event buffer buffer.length = false := by simpa using hm
    by_cases ha : is_arrow_key buffer buffer.length = true
    · rw [scan_item_of_arrow unlock buffer _ event key_states hm1 ha] at h
      simp only [Option.some.injEq] at h
      subst h
      cases unlock with
      | false => simp at hcb
      | true =>
        simp only [if_true, List.mem_singleton] at hcb
        rw [hcb]
        exact ⟨ha, rfl⟩
    · have ha1 : is_arrow_key buffer buffer.length = false := by simpa using ha
      by_cases hk : is_plain_key (buffer.getD 0 0)
      · rw [scan_item_of_key unlock buffer _ event key_states hm1 ha1 hk] at h
        simp only [Option.some.injEq] at h
        subst h
        cases unlock with
        | false => simp at hcb
        | true =>
          simp only [if_true, List.mem_singleton] at hcb
          rw [hcb]
          exact ⟨hne, rfl, hk⟩
      · rw [scan_item_of_other unlock buffer _ event key_states hm1 ha1 hk] at h
        simp only [Option.some.injEq] at h
        subst h
        simp at hcb

theorem scan_loop_decoded (unlock : Bool) (input_buffer : List Nat) (fuel : Nat) (s : Scan) :
    ∀ cb ∈ (scan_loop unlock input_buffer fuel s).2,
      ∃ k, k < input_buffer.length ∧ decoded_at cb (input_buffer.drop k) := by
  induction fuel generalizing s with
  | zero =>
    intro cb hcb
    simp [scan_loop] at hcb
  | succ fuel ih =>
    intro cb hcb
    rw [scan_loop] at hcb
    by_cases hp : s.processed < input_buffer.length
    · simp only [hp, if_true] at hcb
      have hlen : (input_buffer.drop s.processed).length
          = input_buffer.length - s.processed := List.length_drop _ _
      have hne : input_buffer.drop s.processed ≠ [] := by
        intro hnil
        rw [hnil] at hlen
        simp only [List.length_nil] at hlen
        omega
      cases hitem : scan_item unlock (input_buffer.drop s.processed)
          (input_buffer.length - s.processed) s.event s.key_states with
      | none =>
        simp only [scan_step, hitem] at hcb
        simp at hcb
      | some r =>
        simp only [scan_step, hitem, List.mem_append] at hcb
        rcases hcb with hcb | hcb
        · rw [← hlen] at hitem
          exact ⟨s.processed, hp, scan_item_decoded unlock _ _ _ r hne hitem cb hcb⟩
        · exact ih _ cb hcb
    · simp only [hp, if_false] at hcb
      simp at hcb

/-- Every callback invoked by an outer iteration is decoded, in that iteration, at some
offset of the buffer it scans, `pending ++ chunk`. -/
theorem process_input_iter_decoded (st : LoopState) (chunk : List Nat) :
    ∀ cb ∈ (process_input_iter st chunk).2,
      ∃ k, k < (st.input_buffer ++ chunk).length ∧
        decoded_at cb ((st.input_buffer ++ chunk).drop k) := by
  intro cb hcb
  unfold process_input_iter at hcb
  by_cases h0 : chunk.length = 0
  · simp only [h0, if_true] at hcb
    simp at hcb
  · by_cases hfit : st.input_buffer.length + chunk.length < MAX_BUFFER_SIZE
    · simp only [h0, if_false, hfit, if_true] at hcb
      exact scan_loop_decoded st.unlock _ _ _ cb hcb
    · simp only [h0, if_false, hfit] at hcb
      simp at hcb

/-- What an outer iteration retains is a suffix of the buffer it had to scan. -/
theorem process_input_iter_suffix (st : LoopState) (chunk : List Nat) :
    ∃ k, (process_input_iter st chunk).1.input_buffer = (st.input_buffer ++ chunk).drop k := by
  by_cases hne : chunk = []
  · subst hne
    exact ⟨0, by simp [process_input_iter]⟩
  · by_cases hfit : st.input_buffer.length + chunk.length < MAX_BUFFER_SIZE
    · exact ⟨_, (process_input_iter_append st chunk hne hfit).1⟩
    · refine ⟨(st.input_buffer ++ chunk).length, ?_⟩
      rw [process_input_iter_discard st chunk hne (by omega), List.drop_length]

/-- C7: the input gate suppresses dispatch only. For every loop state and every read
chunk, an outer iteration of `process_input` with the gate closed (after
`lock_inputs`) invokes no callback and leaves the receive buffer, both key tables and
the whole `MouseEvent` equal to those of the same iteration with the gate open. After
`unlock_inputs`, only what is decoded in later iterations is dispatched: every
callback of the next iteration is decoded in it, at an offset of the buffer it scans,
which holds the bytes the closed iteration left unconsumed followed by the new chunk;
a click callback is invoked only when the decode at that offset reads a press of that
button; what the iteration dispatches depends on the past only through those bytes
and the two button latches, never on click flags or coordinates left by an earlier
decode; and the same holds for every iteration from every state. -/
theorem gate_suppresses_dispatch_only (st : LoopState) (chunk later : List Nat) :
    (process_input_iter (lock_inputs st) chunk).2 = [] ∧
    (process_input_iter (lock_inputs st) chunk).1.input_buffer
      = (process_input_iter (unlock_inputs st) chunk).1.input_buffer ∧
    (process_input_iter (lock_inputs st) chunk).1.key_pressed_last_frame
      = (process_input_iter (unlock_inputs st) chunk).1.key_pressed_last_frame ∧
    (process_input_iter (lock_inputs st) chunk).1.key_states
      = (process_input_iter (unlock_inputs st) chunk).1.key_states ∧
    (process_input_iter (lock_inputs st) chunk).1.event
      = (process_input_iter (unlock_inputs st) chunk).1.event ∧
    (process_input_iter (lock_inputs st) chunk).1.unlock = false ∧
    process_input_iter (unlock_inputs (process_input_iter (lock_inputs st) chunk).1) later
      = process_input_iter (unlock_inputs (process_input_iter (unlock_inputs st) chunk).1)
          later ∧
    (∃ k, (process_input_iter (lock_inputs st) chunk).1.input_buffer
      = (st.input_buffer ++ chunk).drop k) ∧
    (∀ cb ∈ (process_input_iter
        (unlock_inputs (process_input_iter (lock_inputs st) chunk).1) later).2,
      ∃ k, k < ((process_input_iter (lock_inputs st) chunk).1.input_buffer ++ later).length ∧
        decoded_at cb
          (((process_input_iter (lock_inputs st) chunk).1.input_buffer ++ later).drop k)) ∧
    (∀ s1 : LoopState,
      s1.input_buffer = (process_input_iter (lock_inputs st) chunk).1.input_buffer →
      s1.unlock = true →
      same_latches s1.event (process_input_iter (lock_inputs st) chunk).1.event →
      (process_input_iter s1 later).2
        = (process_input_iter
            (unlock_inputs (process_input_iter (lock_inputs st) chunk).1) later).2) ∧
    (∀ (s0 : LoopState) (c : List Nat), ∀ cb ∈ (process_input_iter s0 c).2,
      s0.unlock = true ∧
      ∃ k, k < (s0.input_buffer ++ c).length ∧
        decoded_at cb ((s0.input_buffer ++ c).drop k)) := by
  have hlocked := process_input_iter_locked st chunk
  refine ⟨by rw [hlocked], by rw [hlocked]; rfl, by rw [hlocked]; rfl, by rw [hlocked]; rfl,
    by rw [hlocked]; rfl, by rw [hlocked]; rfl, by rw [hlocked]; rfl, ?_, ?_, ?_, ?_⟩
  · have h := process_input_iter_suffix (lock_inputs st) chunk
    exact h
  · intro cb hcb
    exact process_input_iter_decoded
      (unlock_inputs (process_input_iter (lock_inputs st) chunk).1) later cb hcb
  · intro s1 hbuf hgate hlatch
    exact process_input_iter_same_latches s1
      (unlock_inputs (process_input_iter (lock_inputs st) chunk).1) later hbuf hgate hlatch
  · intro s0 c cb hcb
    refine ⟨?_, process_input_iter_decoded s0 c cb hcb⟩
    cases hu : s0.unlock with
    | true => rfl
    | false =>
      have hs0 : s0 = lock_inputs s0 := by
        cases s0
        simp only [lock_inputs]
        simp only at hu
        rw [hu]
      rw [hs0, process_input_iter_locked] at hcb
      exact absurd hcb (List.not_mem_nil cb)

/-- The press `ESC[<0;10;5M` read with the gate closed, then the gate opened and the
motion report `ESC[<35;11;5M` read: no callback in either iteration, although the
press was decoded (the left latch is set). A release and a new press read afterwards
are dispatched as one click. -/
theorem gate_suppresses_dispatch_only_witness :
    (process_input_iter (lock_inputs initial_state)
      [27, 91, 60, 48, 59, 49, 48, 59, 53, 77]).2 = [] ∧
    (process_input_iter (lock_inputs initial_state)
      [27, 91, 60, 48, 59, 49, 48, 59, 53, 77]).1.event.left_just_pressed = true ∧
    (process_input_iter
      (unlock_inputs (process_input_iter (lock_inputs initial_state)
        [27, 91, 60, 48, 59, 49, 48, 59, 53, 77]).1)
      [27, 91, 60, 51, 53, 59, 49, 49, 59, 53, 77]).2 = [] ∧
    (run initial_state
      [Action.lock, Action.read [27, 91, 60, 48, 59, 49, 48, 59, 53, 77], Action.unlock,
        Action.read [27, 91, 60, 51, 53, 59, 49, 49, 59, 53, 77],
        Action.read ([27, 91, 60, 48, 59, 49, 50, 59, 55, 109]
          ++ [27, 91, 60, 48, 59, 49, 50, 59, 55, 77])]).2
      = [Callback.mouse_left_event 12 7] :=
  ⟨(gate_suppresses_dispatch_only initial_state [27, 91, 60, 48, 59, 49, 48, 59, 53, 77]
      [27, 91, 60, 51, 53, 59, 49, 49, 59, 53, 77]).1,
   by decide, by decide, by decide⟩

end InputManager
